import Mathlib

/-!
Shallow embedding of `src/main.py` of the review_analyzer repository.

The script builds a pandas `DataFrame` from a list of scraped review
records (`process_reviews_data`), coerces the `stars` column to numeric
via `pd.to_numeric`, attaches a synthetic `review_date` drawn as
`start_date + timedelta(days=random.randint(0, 730))`, and then derives
a star histogram (`value_counts().sort_index()`), monthly review counts
(`resample('M').size()`), first-row summary statistics (`iloc[0]`,
`mean()`), and a two-column CSV projection for the AI analysis
(`df[['stars', 'text']].dropna(subset=['text']).to_csv`).

Cells hold `Option Value`; `none` models a missing value / Python `None`
/ pandas `NaN`.  Timestamps are modelled as integers (days); rationals
stand in for Python floats.  Fallible pandas operations (`KeyError` on a
missing column, `ValueError` from `pd.to_numeric`, `IndexError` from
`iloc[0]` on an empty frame) are modelled with `Except` / `Option`.
-/

set_option maxRecDepth 4000
set_option linter.unusedVariables false

namespace ReviewAnalyzer

/-- A scalar cell value: a string, a (rational) number, or a timestamp
(days since the civil epoch 1970-01-01). -/
inductive Value where
  | str (s : String)
  | num (q : ℚ)
  | date (d : ℤ)
deriving DecidableEq

/-- One raw review record as returned by the scraping backend: an
association list from field name to value; `none` is an explicit null. -/
def RawRecord : Type := List (String × Option Value)

instance : DecidableEq RawRecord := by
  unfold RawRecord
  infer_instance

/-- Field lookup in a raw record; a missing key and an explicit null both
yield `none` (both become `NaN` in `pd.DataFrame`). -/
def rawLookup (r : RawRecord) (k : String) : Option Value :=
  (List.lookup k r).getD none

/-- The field names of one raw record, in order. -/
def recordKeys (r : RawRecord) : List String :=
  r.map Prod.fst

/-- Append a key to an accumulator if not already present (pandas column
inference keeps first-appearance order). -/
def insKey (acc : List String) (k : String) : List String :=
  if k ∈ acc then acc else acc ++ [k]

/-- Union of all field names of the records, in first-appearance order:
the columns that `pd.DataFrame(records)` infers. -/
def unionKeys (records : List RawRecord) : List String :=
  records.foldl (fun acc r => (recordKeys r).foldl insKey acc) []

/-- A pandas `DataFrame`: named columns and rows of cells, where row `i`,
column `j` holds `rows[i][j]` and `none` models `NaN`. -/
structure DataFrame where
  cols : List String
  rows : List (List (Option Value))
deriving DecidableEq

/-- The cell of row `row` at the (first) column named `c`
(`df[c]` on one row). -/
def cellAt : List String → List (Option Value) → String → Option Value
  | [], _, _ => none
  | _, [], _ => none
  | k :: ks, v :: vs, c => if k = c then v else cellAt ks vs c

/-- Replace the cell of the (first) column named `c` in one row. -/
def setCell : List String → List (Option Value) → String → Option Value →
    List (Option Value)
  | [], row, _, _ => row
  | _ :: _, [], _, _ => []
  | k :: ks, v :: vs, c, nv => if k = c then nv :: vs else v :: setCell ks vs c nv

/-- `pd.DataFrame(records)`: columns are the union of the records' keys in
first-appearance order, one row per record, missing fields become `NaN`. -/
def mkDataFrame (records : List RawRecord) : DataFrame :=
  let cs := unionKeys records
  ⟨cs, records.map (fun r => cs.map (fun k => rawLookup r k))⟩

/-- `df[c]`: the column named `c`, or `none` for the `KeyError` when the
column does not exist. -/
def getCol (df : DataFrame) (c : String) : Option (List (Option Value)) :=
  if c ∈ df.cols then some (df.rows.map (fun r => cellAt df.cols r c)) else none

/-- `df[c] = vals`: overwrite an existing column, or append a new one. -/
def setCol (df : DataFrame) (c : String) (vals : List (Option Value)) : DataFrame :=
  if c ∈ df.cols then
    ⟨df.cols, List.zipWith (fun r v => setCell df.cols r c v) df.rows vals⟩
  else
    ⟨df.cols ++ [c], List.zipWith (fun r v => r ++ [v]) df.rows vals⟩

/-- Big-endian decimal digits to a natural number. -/
def digitsToNat (cs : List Char) : ℕ :=
  cs.foldl (fun a c => 10 * a + (c.toNat - 48)) 0

/-- Parse an unsigned decimal numeral (digits, optionally with one dot,
as accepted by Python `float`); `none` when the text is not numeric. -/
def parseUDec (cs : List Char) : Option ℚ :=
  let ip := cs.takeWhile Char.isDigit
  let rest := cs.dropWhile Char.isDigit
  match rest with
  | [] => if ip = [] then none else some (digitsToNat ip)
  | c :: frac =>
    if c = '.' ∧ frac.all Char.isDigit ∧ (ip ≠ [] ∨ frac ≠ []) then
      some ((digitsToNat ip : ℚ) + (digitsToNat frac : ℚ) / ((10 : ℚ) ^ frac.length))
    else none

/-- Numeric parsing of a string as done by `pd.to_numeric` (Python float
syntax, restricted to the decimal core): optional sign, digits, optional
fractional part.  Strings such as `"N/A"` yield `none`. -/
def parseNum (s : String) : Option ℚ :=
  match s.data with
  | [] => none
  | c :: rest =>
    if c = '-' then (parseUDec rest).map (fun q => -q)
    else if c = '+' then parseUDec rest
    else parseUDec (c :: rest)

/-- `pd.to_numeric` on a single cell: `NaN` stays `NaN`, numbers pass
through, numeric strings are parsed; `none` signals the `ValueError`. -/
def toNumericCell : Option Value → Option (Option ℚ)
  | none => some none
  | some (.num q) => some (some q)
  | some (.str s) => (parseNum s).map some
  | some (.date _) => none

/-- `pd.to_numeric` over a column, reporting the position of the first
cell that cannot be parsed (as in the pandas `ValueError` message
`Unable to parse string ... at position i`). -/
def toNumericAux : ℕ → List (Option Value) → Except ℕ (List (Option ℚ))
  | _, [] => .ok []
  | i, v :: vs =>
    match toNumericCell v with
    | none => .error i
    | some q => (toNumericAux (i + 1) vs).map (fun l => q :: l)

/-- `pd.to_numeric(df['stars'])`. -/
def toNumeric (col : List (Option Value)) : Except ℕ (List (Option ℚ)) :=
  toNumericAux 0 col

/-- The errors the script can raise while reshaping data: a pandas
`KeyError` (missing column), the `pd.to_numeric` `ValueError` at a given
record position (the spec's ValidationError), and the `iloc[0]`
`IndexError` on an empty frame (the spec's EmptyTableError). -/
inductive PdError where
  | keyError (c : String)
  | validation (i : ℕ)
  | indexError
deriving DecidableEq

/-- `process_reviews_data` (src/main.py lines 47-57), the spec's
`build_table`: builds the DataFrame, coerces `stars` with
`pd.to_numeric`, and assigns each row a synthetic
`review_date = now - 730 days + offs i` where `offs i` models the i-th
call of `random.randint(0, 730)`.  `now : ℤ` is the wall-clock day at
the call. -/
def process_reviews_data (now : ℤ) (offs : ℕ → ℕ) (records : List RawRecord) :
    Except PdError DataFrame :=
  let df := mkDataFrame records
  match getCol df "stars" with
  | none => .error (.keyError "stars")
  | some starsCol =>
    match toNumeric starsCol with
    | .error i => .error (.validation i)
    | .ok nums =>
      let df1 := setCol df "stars" (nums.map (fun oq => oq.map Value.num))
      let dates := (List.range df1.rows.length).map
        (fun i => now - 730 + (offs i : ℤ))
      .ok (setCol df1 "review_date" (dates.map (fun d => some (.date d))))

/-- Read a numeric cell back as a rational (`NaN` for anything else). -/
def asNum : Option Value → Option ℚ
  | some (.num q) => some q
  | _ => none

/-- Read a date cell back as a day number. -/
def asDate : Option Value → Option ℤ
  | some (.date d) => some d
  | _ => none

/-- The numeric ratings of the table, `NaN` as `none`
(the `stars` column). -/
def starsRatings (df : DataFrame) : List (Option ℚ) :=
  ((getCol df "stars").getD []).map asNum

/-- The synthetic review dates of the table (the `review_date` column). -/
def reviewDates (df : DataFrame) : List ℤ :=
  ((getCol df "review_date").getD []).filterMap asDate

instance {ε α : Type} [DecidableEq ε] [DecidableEq α] :
    DecidableEq (Except ε α) := fun x y =>
  match x, y with
  | .ok a, .ok b =>
    if h : a = b then .isTrue (by simp [h]) else .isFalse (by simp [h])
  | .error e, .error f =>
    if h : e = f then .isTrue (by simp [h]) else .isFalse (by simp [h])
  | .ok _, .error _ => .isFalse (by simp)
  | .error _, .ok _ => .isFalse (by simp)

/-! ## Summary & chart derivers -/

/-- Insert into a strictly ascending list, dropping duplicates (builds the
index of `value_counts().sort_index()`). -/
def insertAsc {α : Type} [LinearOrder α] (q : α) : List α → List α
  | [] => [q]
  | x :: xs =>
    if q < x then q :: x :: xs
    else if q = x then x :: xs
    else x :: insertAsc q xs

/-- The distinct elements of a list, in ascending order. -/
def sortDedup {α : Type} [LinearOrder α] (l : List α) : List α :=
  l.foldl (fun acc q => insertAsc q acc) []

/-- `series.value_counts().sort_index()`: occurrence counts of the
distinct non-`NaN` values, keyed and ordered by value ascending
(`value_counts` drops `NaN`, and absent values are not zero-filled). -/
def value_counts (col : List (Option ℚ)) : List (ℚ × ℕ) :=
  let vs := col.filterMap id
  (sortDedup vs).map (fun k => (k, vs.count k))

/-- `df['stars'].value_counts().sort_index()` (src/main.py line 66), the
spec's `rating_histogram`; `none` is the `KeyError` on a missing column. -/
def rating_histogram (df : DataFrame) : Option (List (ℚ × ℕ)) :=
  (getCol df "stars").map (fun sc => value_counts (sc.map asNum))

/-- Calendar month of a day number (days since 1970-01-01), linearised as
`12 * year + month`; civil-calendar conversion (Gregorian, proleptic). -/
def monthIndex (z : ℤ) : ℤ :=
  let zd := z + 719468
  let era := Int.fdiv zd 146097
  let doe := zd - era * 146097
  let yoe := Int.fdiv (doe - Int.fdiv doe 1460 + Int.fdiv doe 36524 -
    Int.fdiv doe 146096) 365
  let y := yoe + era * 400
  let doy := doe - (365 * yoe + Int.fdiv yoe 4 - Int.fdiv yoe 100)
  let mp := Int.fdiv (5 * doy + 2) 153
  let m := mp + (if mp < 10 then 3 else -9)
  let year := y + (if m ≤ 2 then 1 else 0)
  12 * year + m

/-- The consecutive month keys from `lo` to `hi` inclusive (the regular
bins that `resample('M')` generates between the first and last month). -/
def bucketKeys (lo hi : ℤ) : List ℤ :=
  (List.range (hi + 1 - lo).toNat).map (fun i : ℕ => lo + (i : ℤ))

/-- `df.set_index('review_date').resample('M').size()` (src/main.py line
72), the spec's `monthly_counts`: rows are bucketed by the calendar month
of their date; `resample` emits every month between the earliest and the
latest occupied month (months with no rows appear with count 0), in
chronological order.  The bucket range is taken as the min/max of the
month indices, which coincides with resample's month-of-earliest-date to
month-of-latest-date range because the calendar month is monotone in the
date. -/
def monthly_counts (dates : List ℤ) : List (ℤ × ℕ) :=
  match dates with
  | [] => []
  | d :: ds =>
    let ms := (d :: ds).map monthIndex
    let lo := ms.foldl min (monthIndex d)
    let hi := ms.foldl max (monthIndex d)
    (bucketKeys lo hi).map (fun m => (m, ms.count m))

/-- `series.iloc[0]`: first element, `IndexError` on an empty frame. -/
def iloc0 (col : List (Option Value)) : Except PdError (Option Value) :=
  match col with
  | [] => .error .indexError
  | v :: _ => .ok v

/-- `series.mean()`: unweighted arithmetic mean of the non-`NaN` entries
(pandas skips `NaN`); `none` when there is nothing to average. -/
def meanRating (ratings : List (Option ℚ)) : Option ℚ :=
  let vs := ratings.filterMap id
  if vs.length = 0 then none else some (vs.sum / (vs.length : ℚ))

/-- The summary block of src/main.py lines 117-120: first-row store
fields and the mean rating (kept unrounded; rounding is applied at
display time, see `round2`). -/
structure SummaryStatistics where
  title : Option Value
  category : Option Value
  reviewsCount : Option Value
  mean : Option ℚ
deriving DecidableEq

/-- The summary display block (src/main.py lines 117-120), the spec's
`summary`: `iloc[0]` lookups of title / category / review count followed
by `df['stars'].mean()`; on a zero-row table the first `iloc[0]` raises
(the spec's EmptyTableError). -/
def summary (df : DataFrame) : Except PdError SummaryStatistics :=
  match getCol df "title", getCol df "categoryName",
      getCol df "reviewsCount", getCol df "stars" with
  | some tc, some cc, some rc, some sc => do
    let t ← iloc0 tc
    let c ← iloc0 cc
    let r ← iloc0 rc
    .ok ⟨t, c, r, meanRating (sc.map asNum)⟩
  | _, _, _, _ => .error (.keyError "summary")

/-- Rounding to 2 decimal places, the model of the `:.2f` format used to
display the mean rating (src/main.py line 120). -/
def round2 (q : ℚ) : ℚ :=
  (⌊q * 100 + 1 / 2⌋ : ℚ) / 100

/-- The mean rating as displayed (`f"平均評価: {df['stars'].mean():.2f}"`). -/
def displayedMeanRating (df : DataFrame) : Except PdError (Option ℚ) :=
  (summary df).map (fun s => s.mean.map round2)

/-! ## Insight Requester projection and CSV transfer format -/

/-- `df[cols]`: column projection, `KeyError` if any name is missing. -/
def selectCols (df : DataFrame) (cs : List String) : Option DataFrame :=
  if cs.all (fun c => c ∈ df.cols) then
    some ⟨cs, df.rows.map (fun r => cs.map (fun c => cellAt df.cols r c))⟩
  else none

/-- `df.dropna(subset=[c])`: keep the rows whose cell at `c` is not
`NaN`. -/
def dropna (df : DataFrame) (c : String) : DataFrame :=
  ⟨df.cols, df.rows.filter (fun r => (cellAt df.cols r c).isSome)⟩

/-- `df[['stars', 'text']].dropna(subset=['text'])` (src/main.py line
144): the two-column projection sent to the AI analysis. -/
def dfAI (df : DataFrame) : Option DataFrame :=
  (selectCols df ["stars", "text"]).map (fun d => dropna d "text")

/-- The decimal digit character of `d`. -/
def digitChar (d : ℕ) : Char :=
  Char.ofNat (48 + d)

/-- Big-endian decimal numeral of a natural number. -/
def natChars (n : ℕ) : List Char :=
  if n = 0 then ['0']
  else ((Nat.digits 10 n).map digitChar).reverse

/-- Decimal numeral of an integer. -/
def intChars (i : ℤ) : List Char :=
  if i < 0 then '-' :: natChars i.natAbs else natChars i.toNat

/-- Textual form of a rational in the transfer format: numerator, and the
denominator after `'/'` when it is not 1. -/
def ratChars (q : ℚ) : List Char :=
  intChars q.num ++ (if q.den = 1 then [] else '/' :: natChars q.den)

/-- A cell as a CSV field string: `NaN` becomes the empty field (as in
`to_csv`), strings are verbatim (escaping happens at the CSV layer),
numbers and dates in their textual form. -/
def cellField : Option Value → List Char
  | none => []
  | some (.str s) => s.data
  | some (.num q) => ratChars q
  | some (.date d) => intChars d

/-- Does a CSV field need quoting (csv `QUOTE_MINIMAL`: it contains the
delimiter, the quote char, or a line break)? -/
def csvNeedsQuote (f : List Char) : Bool :=
  f.any (fun c => c == ',' || c == '"' || c == '\n' || c == '\r')

/-- Quote-double the field body and close the quote. -/
def escQuotes : List Char → List Char
  | [] => ['"']
  | c :: cs => if c = '"' then '"' :: '"' :: escQuotes cs else c :: escQuotes cs

/-- A CSV field, quoted when needed. -/
def escapeField (f : List Char) : List Char :=
  if csvNeedsQuote f then '"' :: escQuotes f else f

/-- One two-field CSV record line. -/
def encodeRecord (a b : List Char) : List Char :=
  escapeField a ++ ',' :: escapeField b ++ ['\n']

/-- The header cells written by `df_ai.to_csv(index=False)`. -/
def starsChars : List Char := ['s', 't', 'a', 'r', 's']

/-- The second header cell. -/
def textChars : List Char := ['t', 'e', 'x', 't']

/-- `df_ai.to_csv(index=False)` (src/main.py line 145): header line then
one CSV record per row of the two-column projection. -/
def toCsvAI (df : DataFrame) : Option (List Char) :=
  (dfAI df).map (fun d =>
    encodeRecord starsChars textChars ++
      (d.rows.map (fun r =>
        encodeRecord (cellField (r.getD 0 none)) (cellField (r.getD 1 none)))).flatten)

/-! Modelled from the spec: the repository never parses the CSV back (it
re-reads the file as raw text), but the spec's round-trip property
(§8: "serializing a ReviewTable's two-column projection to the transfer
format and parsing it back yields the same (rating, text) pairs")
requires a reader of the transfer format.  The parser below is a plain
RFC-4180-style CSV reader for the same dialect `to_csv` writes. -/

/-- Read an unquoted CSV field: everything up to the delimiter or end of
line; returns the field and the rest of the input (starting at the
delimiter, when present). -/
def parseUnquoted : List Char → (List Char × List Char)
  | [] => ([], [])
  | c :: cs =>
    if c = ',' ∨ c = '\n' then ([], c :: cs)
    else
      let p := parseUnquoted cs
      (c :: p.1, p.2)

/-- Read the body of a quoted CSV field (the opening quote already
consumed): doubled quotes are literal quotes, a lone quote closes the
field; `none` when the input ends before the field closes. -/
def parseQuoted : List Char → Option (List Char × List Char)
  | [] => none
  | c :: cs =>
    if c = '"' then
      match cs with
      | [] => some ([], [])
      | c2 :: cs2 =>
        if c2 = '"' then (parseQuoted cs2).map (fun p => ('"' :: p.1, p.2))
        else some ([], cs)
    else (parseQuoted cs).map (fun p => (c :: p.1, p.2))

/-- Read one CSV field. -/
def parseField (cs : List Char) : Option (List Char × List Char) :=
  match cs with
  | [] => some ([], [])
  | c :: rest => if c = '"' then parseQuoted rest else some (parseUnquoted (c :: rest))

/-- Read one two-field CSV record terminated by a newline. -/
def parseRecord (cs : List Char) : Option ((List Char × List Char) × List Char) :=
  match parseField cs with
  | none => none
  | some (a, r1) =>
    match r1 with
    | ',' :: r2 =>
      match parseField r2 with
      | none => none
      | some (b, r3) =>
        match r3 with
        | '\n' :: r4 => some ((a, b), r4)
        | _ => none
    | _ => none

/-- Read CSV records until the input is exhausted (fuelled recursion; the
fuel is the input length at the top call). -/
def parseRecords : ℕ → List Char → Option (List (List Char × List Char))
  | _, [] => some []
  | 0, _ :: _ => none
  | fuel + 1, c :: cs =>
    match parseRecord (c :: cs) with
    | none => none
    | some (p, rest) =>
      match parseRecords fuel rest with
      | none => none
      | some ps => some (p :: ps)

/-- Parse the numeral of a rating field in the transfer format. -/
def parsePosRat (cs : List Char) : Option ℚ :=
  let ip := cs.takeWhile Char.isDigit
  let rest := cs.dropWhile Char.isDigit
  if ip = [] then none
  else
    match rest with
    | [] => some ((digitsToNat ip : ℕ) : ℚ)
    | c :: ds =>
      if c = '/' ∧ ds ≠ [] ∧ ds.all Char.isDigit ∧ digitsToNat ds ≠ 0 then
        some ((digitsToNat ip : ℚ) / (digitsToNat ds : ℚ))
      else none

/-- Parse a rating field, sign included. -/
def parseRatChars (cs : List Char) : Option ℚ :=
  match cs with
  | [] => none
  | c :: rest =>
    if c = '-' then (parsePosRat rest).map (fun q => -q) else parsePosRat (c :: rest)

/-- Parse a rating field of the transfer format; the empty field is the
serialized `NaN`. -/
def parseRatField (cs : List Char) : Option (Option ℚ) :=
  if cs = [] then some none else (parseRatChars cs).map some

/-- Option-monad `mapM` over a list. -/
def optMapM {α β : Type} (f : α → Option β) : List α → Option (List β)
  | [] => some []
  | a :: as =>
    match f a with
    | none => none
    | some b =>
      match optMapM f as with
      | none => none
      | some bs => some (b :: bs)

/-- Parse the whole AI transfer file back into (rating, text) pairs:
records are read, the header is checked, the rating field of each data
record is decoded and the text field kept verbatim. -/
def parseCsvAI (cs : List Char) : Option (List (Option ℚ × List Char)) :=
  match parseRecords cs.length cs with
  | none => none
  | some [] => none
  | some ((h1, h2) :: rest) =>
    if h1 = starsChars ∧ h2 = textChars then
      optMapM (fun p => (parseRatField p.1).map (fun r => (r, p.2))) rest
    else none

/-- Row/column alignment invariant of a DataFrame. -/
def WF (df : DataFrame) : Prop :=
  ∀ r ∈ df.rows, r.length = df.cols.length

/-! Concrete fixtures for instantiations: the two-record scenario of
spec §8 (one record with text, one with null text, same store fields). -/

/-- First scenario record. -/
def sampleRec1 : RawRecord :=
  [("stars", some (.num 5)), ("text", some (.str "Great")),
   ("title", some (.str "Cafe X")), ("categoryName", some (.str "Cafe")),
   ("reviewsCount", some (.num 2))]

/-- Second scenario record (null review text). -/
def sampleRec2 : RawRecord :=
  [("stars", some (.num 3)), ("text", none),
   ("title", some (.str "Cafe X")), ("categoryName", some (.str "Cafe")),
   ("reviewsCount", some (.num 2))]

/-- The scenario input. -/
def sampleRecords : List RawRecord := [sampleRec1, sampleRec2]

/-- Input with a non-coercible rating string (spec: `rating = "N/A"`). -/
def badRecords : List RawRecord :=
  [sampleRec1, [("stars", some (.str "N/A"))]]

/-- Input whose second record has an explicit null rating. -/
def nullRecords : List RawRecord :=
  [sampleRec1, [("stars", none)]]

/-- The table `process_reviews_data` builds from `nullRecords` at
`now = 0` with the all-zero randomness oracle: the second row keeps a
`NaN` rating. -/
def nullDF : DataFrame :=
  ⟨["stars", "text", "title", "categoryName", "reviewsCount", "review_date"],
   [[some (.num 5), some (.str "Great"), some (.str "Cafe X"),
     some (.str "Cafe"), some (.num 2), some (.date (-730))],
    [none, none, none, none, none, some (.date (-730))]]⟩

/-- An all-columns, zero-row table (what a summary consumer sees when
the backend returned nothing). -/
def emptyDF : DataFrame :=
  ⟨["title", "categoryName", "reviewsCount", "stars"], []⟩

/-- A one-row table for the single-row mean scenario. -/
def singleDF : DataFrame :=
  ⟨["title", "categoryName", "reviewsCount", "stars"],
   [[some (.str "Cafe X"), some (.str "Cafe"), some (.num 2), some (.num 5)]]⟩

/-- A two-column table fed to the CSV round-trip. -/
def csvDF : DataFrame :=
  ⟨["stars", "text"],
   [[some (.num 5), some (.str "Great")], [some (.num 3), some (.str "so-so")]]⟩

/-- The table `process_reviews_data` builds from `sampleRecords` at
`now = 0` with the all-zero randomness oracle. -/
def sampleDF : DataFrame :=
  ⟨["stars", "text", "title", "categoryName", "reviewsCount", "review_date"],
   [[some (.num 5), some (.str "Great"), some (.str "Cafe X"),
     some (.str "Cafe"), some (.num 2), some (.date (-730))],
    [some (.num 3), none, some (.str "Cafe X"),
     some (.str "Cafe"), some (.num 2), some (.date (-730))]]⟩

/-! ## DataFrame infrastructure lemmas -/

theorem cellAt_map (f : String → Option Value) (c : String) :
    ∀ ks : List String, c ∈ ks → cellAt ks (ks.map f) c = f c := by
  intro ks
  induction ks with
  | nil => intro h; cases h
  | cons k ks ih =>
    intro h
    by_cases hk : k = c
    · subst hk; simp [cellAt]
    · have hc : c ∈ ks := by
        cases h with
        | head => exact absurd rfl hk
        | tail _ h => exact h
      simp [cellAt, hk, ih hc]

theorem length_setCell :
    ∀ (ks : List String) (vs : List (Option Value)) (c : String) (nv : Option Value),
      (setCell ks vs c nv).length = vs.length := by
  intro ks
  induction ks with
  | nil => intro vs c nv; rfl
  | cons k ks ih =>
    intro vs c nv
    cases vs with
    | nil => rfl
    | cons v vs => by_cases hk : k = c <;> simp [setCell, hk, ih]

theorem cellAt_setCell_self :
    ∀ (ks : List String) (vs : List (Option Value)) (c : String) (nv : Option Value),
      c ∈ ks → vs.length = ks.length →
      cellAt ks (setCell ks vs c nv) c = nv := by
  intro ks
  induction ks with
  | nil => intro vs c nv h; cases h
  | cons k ks ih =>
    intro vs c nv h hlen
    cases vs with
    | nil => simp at hlen
    | cons v vs =>
      by_cases hk : k = c
      · simp [setCell, cellAt, hk]
      · have hc : c ∈ ks := by
          cases h with
          | head => exact absurd rfl hk
          | tail _ h => exact h
        simp only [List.length_cons] at hlen
        simp [setCell, cellAt, hk, ih vs c nv hc (by omega)]

theorem cellAt_setCell_other :
    ∀ (ks : List String) (vs : List (Option Value)) (c c' : String) (nv : Option Value),
      c' ≠ c → cellAt ks (setCell ks vs c nv) c' = cellAt ks vs c' := by
  intro ks
  induction ks with
  | nil => intro vs c c' nv _; rfl
  | cons k ks ih =>
    intro vs c c' nv hne
    cases vs with
    | nil => rfl
    | cons v vs =>
      by_cases hk : k = c
      · have hk' : ¬ k = c' := by rw [hk]; exact fun h => hne h.symm
        have hcc : ¬ c = c' := fun h => hne h.symm
        simp [setCell, cellAt, hk, hk', hcc]
      · by_cases hk' : k = c'
        · subst hk'; simp [setCell, cellAt, hne, hk]
        · simp [setCell, cellAt, hk, hk', ih vs c c' nv hne]

theorem cellAt_append_new :
    ∀ (ks : List String) (vs : List (Option Value)) (c : String) (v : Option Value),
      c ∉ ks → vs.length = ks.length →
      cellAt (ks ++ [c]) (vs ++ [v]) c = v := by
  intro ks
  induction ks with
  | nil =>
    intro vs c v _ hlen
    have : vs = [] := List.length_eq_zero.mp hlen
    subst this; simp [cellAt]
  | cons k ks ih =>
    intro vs c v hnm hlen
    cases vs with
    | nil => simp at hlen
    | cons w vs =>
      have hk : ¬ k = c := fun h => hnm (h ▸ List.mem_cons_self k ks)
      simp only [List.length_cons] at hlen
      simp [cellAt, hk, ih vs c v (fun h => hnm (List.mem_cons_of_mem k h)) (by omega)]

theorem cellAt_append_old :
    ∀ (ks : List String) (vs : List (Option Value)) (c c' : String) (v : Option Value),
      c' ≠ c → vs.length = ks.length →
      cellAt (ks ++ [c]) (vs ++ [v]) c' = cellAt ks vs c' := by
  intro ks
  induction ks with
  | nil =>
    intro vs c c' v hne hlen
    have : vs = [] := List.length_eq_zero.mp hlen
    subst this
    have : ¬ c = c' := fun h => hne h.symm
    simp [cellAt, this]
  | cons k ks ih =>
    intro vs c c' v hne hlen
    cases vs with
    | nil => simp at hlen
    | cons w vs =>
      simp only [List.length_cons] at hlen
      by_cases hk : k = c'
      · simp [cellAt, hk]
      · simp [cellAt, hk, ih vs c c' v hne (by omega)]

theorem mem_zipWith {α β γ : Type} {f : α → β → γ} :
    ∀ {as : List α} {bs : List β} {c : γ}, c ∈ List.zipWith f as bs →
      ∃ a ∈ as, ∃ b ∈ bs, c = f a b := by
  intro as
  induction as with
  | nil => intro bs c h; simp at h
  | cons a as ih =>
    intro bs c h
    cases bs with
    | nil => simp at h
    | cons b bs =>
      simp only [List.zipWith_cons_cons, List.mem_cons] at h
      rcases h with h | h
      · exact ⟨a, List.mem_cons_self a as, b, List.mem_cons_self b bs, h⟩
      · obtain ⟨a', ha, b', hb, hc⟩ := ih h
        exact ⟨a', List.mem_cons_of_mem a ha, b', List.mem_cons_of_mem b hb, hc⟩

theorem zipWith_eq_map_right {α β γ : Type} (f : α → β → γ) (g : β → γ) :
    ∀ (as : List α) (bs : List β), as.length = bs.length →
      (∀ a ∈ as, ∀ b, f a b = g b) →
      List.zipWith f as bs = bs.map g := by
  intro as
  induction as with
  | nil =>
    intro bs hlen _
    have : bs = [] := List.length_eq_zero.mp hlen.symm
    subst this; rfl
  | cons a as ih =>
    intro bs hlen h
    cases bs with
    | nil => simp at hlen
    | cons b bs =>
      simp only [List.length_cons] at hlen
      simp [List.zipWith_cons_cons, h a (List.mem_cons_self a as) b,
        ih bs (by omega) (fun a' ha' => h a' (List.mem_cons_of_mem a ha'))]

theorem zipWith_eq_map_left {α β γ : Type} (f : α → β → γ) (g : α → γ) :
    ∀ (as : List α) (bs : List β), as.length = bs.length →
      (∀ a ∈ as, ∀ b, f a b = g a) →
      List.zipWith f as bs = as.map g := by
  intro as
  induction as with
  | nil => intro bs _ _; rfl
  | cons a as ih =>
    intro bs hlen h
    cases bs with
    | nil => simp at hlen
    | cons b bs =>
      simp only [List.length_cons] at hlen
      simp [List.zipWith_cons_cons, h a (List.mem_cons_self a as) b,
        ih bs (by omega) (fun a' ha' => h a' (List.mem_cons_of_mem a ha'))]

theorem mkDataFrame_cols (records : List RawRecord) :
    (mkDataFrame records).cols = unionKeys records := rfl

theorem mkDataFrame_rows_length (records : List RawRecord) :
    (mkDataFrame records).rows.length = records.length := by
  simp [mkDataFrame]

theorem WF_mkDataFrame (records : List RawRecord) : WF (mkDataFrame records) := by
  intro r hr
  simp only [mkDataFrame, List.mem_map] at hr
  obtain ⟨rec, _, hrec⟩ := hr
  simp [← hrec, mkDataFrame]

theorem getCol_mk (records : List RawRecord) (c : String)
    (h : c ∈ unionKeys records) :
    getCol (mkDataFrame records) c = some (records.map (fun r => rawLookup r c)) := by
  simp only [getCol, mkDataFrame_cols, h, if_pos]
  congr 1
  simp only [mkDataFrame, List.map_map]
  exact List.map_congr_left (fun r _ => cellAt_map (rawLookup r) c _ h)

theorem getCol_length {df : DataFrame} {c : String} {col : List (Option Value)}
    (h : getCol df c = some col) : col.length = df.rows.length := by
  simp only [getCol] at h
  by_cases hc : c ∈ df.cols
  · simp only [hc, if_pos, Option.some.injEq] at h
    simp [← h]
  · simp [hc] at h

theorem getCol_mem_cols {df : DataFrame} {c : String} {col : List (Option Value)}
    (h : getCol df c = some col) : c ∈ df.cols := by
  simp only [getCol] at h
  by_cases hc : c ∈ df.cols
  · exact hc
  · simp [hc] at h

theorem setCol_rows_length {df : DataFrame} {c : String} {vals : List (Option Value)}
    (h : vals.length = df.rows.length) :
    (setCol df c vals).rows.length = df.rows.length := by
  by_cases hc : c ∈ df.cols <;> simp [setCol, hc, List.length_zipWith, h]

theorem setCol_cols_sub {df : DataFrame} {c : String} {vals : List (Option Value)}
    {k : String} (h : k ∈ df.cols) : k ∈ (setCol df c vals).cols := by
  by_cases hc : c ∈ df.cols <;> simp [setCol, hc, h]

theorem WF_setCol {df : DataFrame} {c : String} {vals : List (Option Value)}
    (hwf : WF df) (hlen : vals.length = df.rows.length) :
    WF (setCol df c vals) := by
  intro r hr
  by_cases hc : c ∈ df.cols
  · simp only [setCol, hc, if_pos] at hr ⊢
    obtain ⟨a, ha, b, _, hab⟩ := mem_zipWith hr
    rw [hab, length_setCell]
    exact hwf a ha
  · simp only [setCol, hc, if_neg, not_false_iff] at hr ⊢
    obtain ⟨a, ha, b, _, hab⟩ := mem_zipWith hr
    rw [hab]
    simp [hwf a ha]

theorem getCol_setCol_self {df : DataFrame} {c : String} {vals : List (Option Value)}
    (hwf : WF df) (hlen : vals.length = df.rows.length) :
    getCol (setCol df c vals) c = some vals := by
  by_cases hc : c ∈ df.cols
  · simp only [setCol, hc, if_pos, getCol]
    simp only [List.map_zipWith]
    rw [zipWith_eq_map_right _ (fun v => v) df.rows vals hlen.symm
      (fun r hr v => cellAt_setCell_self df.cols r c v hc (hwf r hr))]
    simp
  · simp only [setCol, hc, if_neg, not_false_iff, getCol]
    have hmem : c ∈ df.cols ++ [c] := by simp
    simp only [hmem, if_pos, List.map_zipWith]
    rw [zipWith_eq_map_right _ (fun v => v) df.rows vals hlen.symm
      (fun r hr v => cellAt_append_new df.cols r c v hc (hwf r hr))]
    simp

theorem getCol_setCol_other {df : DataFrame} {c c' : String}
    {vals : List (Option Value)} (hwf : WF df) (hlen : vals.length = df.rows.length)
    (hne : c' ≠ c) :
    getCol (setCol df c vals) c' = getCol df c' := by
  by_cases hc : c ∈ df.cols
  · simp only [setCol, hc, if_pos, getCol]
    by_cases hc' : c' ∈ df.cols
    · simp only [hc', if_pos, List.map_zipWith, Option.some.injEq]
      rw [zipWith_eq_map_left _ (fun r => cellAt df.cols r c') df.rows vals hlen.symm
        (fun r _ v => cellAt_setCell_other df.cols r c c' v hne)]
    · simp [hc']
  · simp only [setCol, hc, if_neg, not_false_iff, getCol]
    have hmm : c' ∈ df.cols ++ [c] ↔ c' ∈ df.cols := by simp [hne]
    by_cases hc' : c' ∈ df.cols
    · simp only [hmm.mpr hc', if_pos, hc', List.map_zipWith, Option.some.injEq]
      rw [zipWith_eq_map_left _ (fun r => cellAt df.cols r c') df.rows vals hlen.symm
        (fun r hr v => cellAt_append_old df.cols r c c' v hne (hwf r hr))]
    · simp [hmm, hc']

/-! ## unionKeys lemmas -/

theorem mem_foldl_insKey_of_mem_acc :
    ∀ (ks : List String) (acc : List String) (k : String),
      k ∈ acc → k ∈ ks.foldl insKey acc := by
  intro ks
  induction ks with
  | nil => intro acc k h; exact h
  | cons k' ks ih =>
    intro acc k h
    apply ih
    by_cases hk : k' ∈ acc <;> simp [insKey, hk, h]

theorem mem_foldl_insKey_of_mem :
    ∀ (ks : List String) (acc : List String) (k : String),
      k ∈ ks → k ∈ ks.foldl insKey acc := by
  intro ks
  induction ks with
  | nil => intro acc k h; cases h
  | cons k' ks ih =>
    intro acc k h
    cases h with
    | head =>
      rw [List.foldl_cons]
      apply mem_foldl_insKey_of_mem_acc
      by_cases hk : k' ∈ acc
      · simp [insKey, hk]
      · simp only [insKey, if_neg hk]
        exact List.mem_append_right _ (by simp)
    | tail _ h => exact ih _ k h

theorem mem_unionKeys_foldl_acc :
    ∀ (records : List RawRecord) (acc : List String) (k : String),
      k ∈ acc →
      k ∈ records.foldl (fun acc r => (recordKeys r).foldl insKey acc) acc := by
  intro records
  induction records with
  | nil => intro acc k h; exact h
  | cons r records ih =>
    intro acc k h
    exact ih _ k (mem_foldl_insKey_of_mem_acc _ _ k h)

theorem mem_unionKeys {records : List RawRecord} {r : RawRecord} {k : String}
    (hr : r ∈ records) (hk : k ∈ recordKeys r) : k ∈ unionKeys records := by
  unfold unionKeys
  induction records with
  | nil => cases hr
  | cons r' records ih =>
    cases hr with
    | head =>
      exact mem_unionKeys_foldl_acc records _ k (mem_foldl_insKey_of_mem _ _ k hk)
    | tail _ hr =>
      dsimp only [List.foldl_cons]
      generalize (recordKeys r').foldl insKey [] = acc
      clear ih
      induction records generalizing acc with
      | nil => cases hr
      | cons r'' records ih2 =>
        cases hr with
        | head =>
          exact mem_unionKeys_foldl_acc records _ k (mem_foldl_insKey_of_mem _ _ k hk)
        | tail _ hr => exact ih2 hr _

/-! ## to_numeric lemmas -/

theorem toNumericAux_ok_inv :
    ∀ (col : List (Option Value)) (n : ℕ) (l : List (Option ℚ)),
      toNumericAux n col = .ok l →
      l = col.map (fun v => (toNumericCell v).getD none) := by
  intro col
  induction col with
  | nil => intro n l h; simp only [toNumericAux] at h; cases h; rfl
  | cons v vs ih =>
    intro n l h
    simp only [toNumericAux] at h
    cases hv : toNumericCell v with
    | none => rw [hv] at h; cases h
    | some q =>
      rw [hv] at h
      cases hrest : toNumericAux (n + 1) vs with
      | error i => rw [hrest] at h; cases h
      | ok l' =>
        rw [hrest] at h
        simp only [Except.map] at h
        cases h
        simp [ih (n + 1) l' hrest, hv]

theorem toNumericAux_ok (col : List (Option Value)) (n : ℕ)
    (h : ∀ v ∈ col, (toNumericCell v).isSome) :
    toNumericAux n col = .ok (col.map (fun v => (toNumericCell v).getD none)) := by
  induction col generalizing n with
  | nil => rfl
  | cons v vs ih =>
    have hsome := h v (List.mem_cons_self v vs)
    cases hv : toNumericCell v with
    | none => rw [hv] at hsome; simp at hsome
    | some q =>
      simp only [toNumericAux, hv,
        ih (n + 1) (fun v' hv' => h v' (List.mem_cons_of_mem v hv')), Except.map]
      simp [hv]

theorem toNumericAux_error (col : List (Option Value)) (n : ℕ)
    (h : ∃ v ∈ col, toNumericCell v = none) :
    toNumericAux n col =
      .error (n + col.findIdx (fun v => (toNumericCell v).isNone)) := by
  induction col generalizing n with
  | nil => simp at h
  | cons v vs ih =>
    cases hv : toNumericCell v with
    | none =>
      simp [toNumericAux, hv, List.findIdx_cons, Option.isNone]
    | some q =>
      have hvs : ∃ v' ∈ vs, toNumericCell v' = none := by
        obtain ⟨v', hv', hnone⟩ := h
        cases hv' with
        | head => rw [hv] at hnone; cases hnone
        | tail _ hmem => exact ⟨v', hmem, hnone⟩
      simp only [toNumericAux, hv, ih (n + 1) hvs, Except.map, List.findIdx_cons]
      simp only [Option.isNone_some, cond_false]
      congr 1
      omega

theorem toNumeric_ok_length {col : List (Option Value)} {l : List (Option ℚ)}
    (h : toNumeric col = .ok l) : l.length = col.length := by
  rw [toNumericAux_ok_inv col 0 l h]
  simp

/-! ## process_reviews_data characterization -/

theorem asNum_map_num (oq : Option ℚ) : asNum (oq.map Value.num) = oq := by
  cases oq <;> rfl

theorem process_ok_inv {now : ℤ} {offs : ℕ → ℕ} {records : List RawRecord}
    {df : DataFrame} (h : process_reviews_data now offs records = .ok df) :
    ∃ sc nums, getCol (mkDataFrame records) "stars" = some sc ∧
      toNumeric sc = .ok nums ∧
      df = setCol
        (setCol (mkDataFrame records) "stars" (nums.map (fun oq => oq.map Value.num)))
        "review_date"
        (((List.range records.length).map (fun i => now - 730 + (offs i : ℤ))).map
          (fun d => some (.date d))) := by
  simp only [process_reviews_data] at h
  cases hsc : getCol (mkDataFrame records) "stars" with
  | none => simp only [hsc] at h; cases h
  | some sc =>
    simp only [hsc] at h
    cases hnum : toNumeric sc with
    | error i => simp only [hnum] at h; cases h
    | ok nums =>
      simp only [hnum, Except.ok.injEq] at h
      have hlen1 : (nums.map (fun oq => oq.map Value.num)).length =
          (mkDataFrame records).rows.length := by
        simp [toNumeric_ok_length hnum, getCol_length hsc]
      rw [setCol_rows_length hlen1, mkDataFrame_rows_length] at h
      exact ⟨sc, nums, rfl, hnum, h.symm⟩

theorem process_ok_spec {now : ℤ} {offs : ℕ → ℕ} {records : List RawRecord}
    {df : DataFrame} (h : process_reviews_data now offs records = .ok df) :
    df.rows.length = records.length ∧
    WF df ∧
    (∀ k, k ∈ unionKeys records → k ∈ df.cols) ∧
    getCol df "stars" =
      some ((records.map (fun r => (toNumericCell (rawLookup r "stars")).getD none)).map
        (fun oq => oq.map Value.num)) ∧
    starsRatings df =
      records.map (fun r => (toNumericCell (rawLookup r "stars")).getD none) ∧
    reviewDates df =
      (List.range records.length).map (fun i => now - 730 + (offs i : ℤ)) ∧
    (∀ k, k ∈ unionKeys records → ¬ k = "stars" → ¬ k = "review_date" →
      getCol df k = some (records.map (fun r => rawLookup r k))) := by
  obtain ⟨sc, nums, hsc, hnum, hdf⟩ := process_ok_inv h
  have hwfM := WF_mkDataFrame records
  have hlen1 : (nums.map (fun oq => oq.map Value.num)).length =
      (mkDataFrame records).rows.length := by
    simp [toNumeric_ok_length hnum, getCol_length hsc]
  have hwf1 : WF (setCol (mkDataFrame records) "stars"
      (nums.map (fun oq => oq.map Value.num))) := WF_setCol hwfM hlen1
  have hrows1 : (setCol (mkDataFrame records) "stars"
      (nums.map (fun oq => oq.map Value.num))).rows.length = records.length := by
    rw [setCol_rows_length hlen1, mkDataFrame_rows_length]
  have hlen2 : (((List.range records.length).map
      (fun i => now - 730 + (offs i : ℤ))).map (fun d => some (Value.date d))).length =
      (setCol (mkDataFrame records) "stars"
        (nums.map (fun oq => oq.map Value.num))).rows.length := by
    simp [hrows1]
  have hsc_mem : "stars" ∈ unionKeys records := by
    have := getCol_mem_cols hsc
    rwa [mkDataFrame_cols] at this
  have hsc_eq : sc = records.map (fun r => rawLookup r "stars") := by
    have h2 := getCol_mk records "stars" hsc_mem
    rw [hsc] at h2
    exact Option.some.inj h2
  have hnums : nums = sc.map (fun v => (toNumericCell v).getD none) :=
    toNumericAux_ok_inv sc 0 nums hnum
  constructor
  · rw [hdf, setCol_rows_length hlen2, hrows1]
  constructor
  · rw [hdf]; exact WF_setCol hwf1 hlen2
  have hstars : getCol df "stars" =
      some (nums.map (fun oq => oq.map Value.num)) := by
    rw [hdf, getCol_setCol_other hwf1 hlen2 (by decide),
      getCol_setCol_self hwfM hlen1]
  have hnums2 : nums =
      records.map (fun r => (toNumericCell (rawLookup r "stars")).getD none) := by
    rw [hnums, hsc_eq, List.map_map]
    rfl
  constructor
  · intro k hk
    rw [hdf]
    exact setCol_cols_sub (setCol_cols_sub (mkDataFrame_cols records ▸ hk))
  constructor
  · rw [hstars, hnums2]
  constructor
  · rw [starsRatings, hstars, Option.getD_some, List.map_map]
    have : (asNum ∘ fun oq => oq.map Value.num) = id := by
      funext oq
      exact asNum_map_num oq
    rw [this, List.map_id, hnums2]
  constructor
  · have hdates : getCol df "review_date" =
        some (((List.range records.length).map
          (fun i => now - 730 + (offs i : ℤ))).map (fun d => some (Value.date d))) := by
      rw [hdf, getCol_setCol_self hwf1 hlen2]
    rw [reviewDates, hdates, Option.getD_some, List.filterMap_map]
    have : (asDate ∘ fun d => some (Value.date d)) = some := by
      funext d
      rfl
    rw [this, List.filterMap_some]
  · intro k hk hks hkr
    rw [hdf, getCol_setCol_other (WF_setCol hwfM hlen1) hlen2 hkr,
      getCol_setCol_other hwfM hlen1 hks, getCol_mk records k hk]

/-! ## value_counts lemmas -/

theorem sum_map_add {α : Type} (l : List α) (f g : α → ℕ) :
    (l.map (fun x => f x + g x)).sum = (l.map f).sum + (l.map g).sum := by
  induction l with
  | nil => rfl
  | cons a l ih => simp only [List.map_cons, List.sum_cons, ih]; omega

theorem sum_indicator_zero {α : Type} [DecidableEq α] (keys : List α) (v : α)
    (hv : v ∉ keys) :
    (keys.map (fun k => if v = k then 1 else 0)).sum = 0 := by
  induction keys with
  | nil => rfl
  | cons k ks ih =>
    have hk : ¬ v = k := fun h => hv (by rw [h]; exact List.mem_cons_self k ks)
    have hks : v ∉ ks := fun h => hv (List.mem_cons_of_mem k h)
    simp only [List.map_cons, List.sum_cons, ih hks, if_neg hk]

theorem sum_indicator {α : Type} [DecidableEq α] (keys : List α) (v : α)
    (hnd : keys.Nodup) (hv : v ∈ keys) :
    (keys.map (fun k => if v = k then 1 else 0)).sum = 1 := by
  induction keys with
  | nil => cases hv
  | cons k ks ih =>
    rw [List.nodup_cons] at hnd
    by_cases hk : v = k
    · have hnks : v ∉ ks := by rw [hk]; exact hnd.1
      simp only [List.map_cons, List.sum_cons, if_pos hk,
        sum_indicator_zero ks v hnks]
    · have hvks : v ∈ ks := by
        cases hv with
        | head => exact absurd rfl hk
        | tail _ h => exact h
      simp only [List.map_cons, List.sum_cons, if_neg hk, ih hnd.2 hvks]

theorem count_sum_eq_length {α : Type} [DecidableEq α] (keys : List α) :
    ∀ vs : List α, keys.Nodup → (∀ v ∈ vs, v ∈ keys) →
      (keys.map (fun k => vs.count k)).sum = vs.length := by
  intro vs
  induction vs with
  | nil => intro _ _; simp
  | cons v vs ih =>
    intro hnd hsub
    have hsub' : ∀ x ∈ vs, x ∈ keys :=
      fun x hx => hsub x (List.mem_cons_of_mem v hx)
    have hv : v ∈ keys := hsub v (List.mem_cons_self v vs)
    have hcnt : ∀ k : α, (v :: vs).count k = vs.count k + if v = k then 1 else 0 := by
      intro k
      rw [List.count_cons]
      simp [beq_iff_eq]
    have step : (keys.map (fun k => (v :: vs).count k)).sum =
        (keys.map (fun k => vs.count k + if v = k then 1 else 0)).sum := by
      congr 1
      exact List.map_congr_left (fun k _ => hcnt k)
    rw [step, sum_map_add, ih hnd hsub', sum_indicator keys v hnd hv]
    simp

theorem mem_insertAsc {α : Type} [LinearOrder α] (q a : α) :
    ∀ l : List α, a ∈ insertAsc q l ↔ a = q ∨ a ∈ l := by
  intro l
  induction l with
  | nil => simp [insertAsc]
  | cons x xs ih =>
    by_cases h1 : q < x
    · simp [insertAsc, h1]
    · by_cases h2 : q = x
      · subst h2
        have he : insertAsc q (q :: xs) = q :: xs := by
          simp [insertAsc, h1]
        rw [he, List.mem_cons]
        tauto
      · simp only [insertAsc, if_neg h1, if_neg h2, List.mem_cons, ih]
        tauto

theorem sorted_insertAsc {α : Type} [LinearOrder α] (q : α) :
    ∀ l : List α, List.Sorted (· < ·) l → List.Sorted (· < ·) (insertAsc q l) := by
  intro l
  induction l with
  | nil => intro _; simp [insertAsc]
  | cons x xs ih =>
    intro hs
    rw [List.sorted_cons] at hs
    by_cases h1 : q < x
    · simp only [insertAsc, if_pos h1]
      rw [List.sorted_cons]
      refine ⟨?_, ?_⟩
      · intro b hb
        cases hb with
        | head => exact h1
        | tail _ hb => exact lt_trans h1 (hs.1 b hb)
      · rw [List.sorted_cons]
        exact hs
    · by_cases h2 : q = x
      · simp only [insertAsc, if_neg h1, if_pos h2]
        rw [List.sorted_cons]
        exact hs
      · have h3 : x < q := lt_of_le_of_ne (not_lt.mp h1) (fun h => h2 h.symm)
        simp only [insertAsc, if_neg h1, if_neg h2]
        rw [List.sorted_cons]
        refine ⟨?_, ih hs.2⟩
        intro b hb
        rw [mem_insertAsc] at hb
        rcases hb with hb | hb
        · exact hb ▸ h3
        · exact hs.1 b hb

theorem sorted_foldl_insertAsc {α : Type} [LinearOrder α] :
    ∀ (l acc : List α), List.Sorted (· < ·) acc →
      List.Sorted (· < ·) (l.foldl (fun acc q => insertAsc q acc) acc) := by
  intro l
  induction l with
  | nil => intro acc h; exact h
  | cons a l ih => intro acc h; exact ih _ (sorted_insertAsc a acc h)

theorem mem_foldl_insertAsc {α : Type} [LinearOrder α] :
    ∀ (l acc : List α) (a : α),
      a ∈ l.foldl (fun acc q => insertAsc q acc) acc ↔ a ∈ acc ∨ a ∈ l := by
  intro l
  induction l with
  | nil => intro acc a; simp
  | cons x l ih =>
    intro acc a
    rw [List.foldl_cons, ih, mem_insertAsc]
    simp only [List.mem_cons]
    tauto

theorem sorted_sortDedup {α : Type} [LinearOrder α] (l : List α) :
    List.Sorted (· < ·) (sortDedup l) :=
  sorted_foldl_insertAsc l [] (by simp)

theorem mem_sortDedup {α : Type} [LinearOrder α] (l : List α) (a : α) :
    a ∈ sortDedup l ↔ a ∈ l := by
  rw [sortDedup, mem_foldl_insertAsc]
  simp

theorem nodup_sortDedup {α : Type} [LinearOrder α] (l : List α) :
    (sortDedup l).Nodup :=
  (sorted_sortDedup l).nodup

theorem value_counts_sum (col : List (Option ℚ)) :
    ((value_counts col).map Prod.snd).sum = (col.filterMap id).length := by
  unfold value_counts
  rw [List.map_map]
  exact count_sum_eq_length (sortDedup (col.filterMap id)) (col.filterMap id)
    (nodup_sortDedup _) (fun v hv => (mem_sortDedup _ v).mpr hv)

theorem value_counts_keys (col : List (Option ℚ)) :
    (value_counts col).map Prod.fst = sortDedup (col.filterMap id) := by
  unfold value_counts
  rw [List.map_map]
  have hfst : (Prod.fst ∘ fun k : ℚ =>
      (k, (col.filterMap id).count k)) = id := rfl
  rw [hfst, List.map_id]

theorem value_counts_sorted (col : List (Option ℚ)) :
    List.Sorted (· < ·) ((value_counts col).map Prod.fst) := by
  rw [value_counts_keys]
  exact sorted_sortDedup _

theorem value_counts_mem {col : List (Option ℚ)} {p : ℚ × ℕ}
    (h : p ∈ value_counts col) :
    some p.1 ∈ col ∧ p.2 = (col.filterMap id).count p.1 ∧ 0 < p.2 := by
  unfold value_counts at h
  rw [List.mem_map] at h
  obtain ⟨k, hk, hp⟩ := h
  have hkv : k ∈ col.filterMap id := (mem_sortDedup _ k).mp hk
  have hcol : some k ∈ col := by
    rw [List.mem_filterMap] at hkv
    obtain ⟨o, ho, hok⟩ := hkv
    cases o with
    | none => cases hok
    | some q => cases hok; exact ho
  have hpos : 0 < (col.filterMap id).count k := List.count_pos_iff.mpr hkv
  rw [← hp]
  exact ⟨hcol, rfl, hpos⟩

theorem value_counts_complete {col : List (Option ℚ)} {q : ℚ}
    (h : some q ∈ col) : q ∈ (value_counts col).map Prod.fst := by
  rw [value_counts_keys, mem_sortDedup, List.mem_filterMap]
  exact ⟨some q, h, rfl⟩

theorem length_filterMap_lt_of_none_mem {α : Type} :
    ∀ l : List (Option α), none ∈ l → (l.filterMap id).length < l.length := by
  intro l
  induction l with
  | nil => intro h; cases h
  | cons x xs ih =>
    intro h
    cases x with
    | none =>
      simp only [List.filterMap_cons_none, List.length_cons]
      exact Nat.lt_succ_of_le (List.length_filterMap_le id xs)
    | some a =>
      have hx : none ∈ xs := by
        cases h with
        | tail _ h => exact h
      simp only [List.filterMap_cons_some, List.length_cons]
      exact Nat.succ_lt_succ (ih hx)

theorem findIdx_map {α β : Type} (f : α → β) (p : β → Bool) :
    ∀ l : List α, (l.map f).findIdx p = l.findIdx (fun a => p (f a)) := by
  intro l
  induction l with
  | nil => rfl
  | cons a l ih => simp [List.findIdx_cons, ih]

/-! ## Claim theorems -/

/-- C1: for every non-empty input sequence of raw records whose rating
fields are present and coercible to numeric, `process_reviews_data`
returns a table with one row per input record, every field of every raw
record appears as a column, and every column other than the coerced
rating and the synthetic date keeps the original values. -/
theorem build_table_preserves_rows_and_fields
    (now : ℤ) (offs : ℕ → ℕ) (records : List RawRecord)
    (hne : records ≠ [])
    (hstars : ∀ r ∈ records, "stars" ∈ recordKeys r ∧
      (toNumericCell (rawLookup r "stars")).isSome) :
    ∃ df, process_reviews_data now offs records = .ok df ∧
      df.rows.length = records.length ∧
      (∀ r ∈ records, ∀ k ∈ recordKeys r, k ∈ df.cols) ∧
      (∀ k, k ∈ unionKeys records → ¬ k = "stars" → ¬ k = "review_date" →
        getCol df k = some (records.map (fun r => rawLookup r k))) := by
  obtain ⟨r0, hr0⟩ : ∃ r, r ∈ records := by
    cases records with
    | nil => exact absurd rfl hne
    | cons a l => exact ⟨a, List.mem_cons_self a l⟩
  have hsmem : "stars" ∈ unionKeys records :=
    mem_unionKeys hr0 (hstars r0 hr0).1
  have hsc := getCol_mk records "stars" hsmem
  have hok : ∀ v ∈ records.map (fun r => rawLookup r "stars"),
      (toNumericCell v).isSome := by
    intro v hv
    obtain ⟨r, hr, hveq⟩ := List.mem_map.mp hv
    exact hveq ▸ (hstars r hr).2
  have hnum := toNumericAux_ok _ 0 hok
  have hproc : ∃ df, process_reviews_data now offs records = .ok df := by
    simp only [process_reviews_data, hsc, toNumeric, hnum]
    exact ⟨_, rfl⟩
  obtain ⟨df, hdf⟩ := hproc
  obtain ⟨hlen, _, hcols, _, _, _, hothers⟩ := process_ok_spec hdf
  exact ⟨df, hdf, hlen, fun r hr k hk => hcols k (mem_unionKeys hr hk), hothers⟩

/-- C1 witness: the theorem instantiated on the two-record scenario. -/
theorem build_table_preserves_rows_and_fields_witness :
    (sampleRecords ≠ [] ∧
      ∀ r ∈ sampleRecords, "stars" ∈ recordKeys r ∧
        (toNumericCell (rawLookup r "stars")).isSome) ∧
    ∃ df, process_reviews_data 0 (fun _ => 0) sampleRecords = .ok df ∧
      df.rows.length = sampleRecords.length ∧
      (∀ r ∈ sampleRecords, ∀ k ∈ recordKeys r, k ∈ df.cols) ∧
      (∀ k, k ∈ unionKeys sampleRecords → ¬ k = "stars" → ¬ k = "review_date" →
        getCol df k = some (sampleRecords.map (fun r => rawLookup r k))) :=
  ⟨⟨by decide, by decide⟩,
    build_table_preserves_rows_and_fields 0 (fun _ => 0) sampleRecords
      (by decide) (by decide)⟩

/-- C2: if some record's rating field is a non-coercible string, the
whole construction fails with the `to_numeric` error carrying the index
of the first offending record (pandas reports the series position in its
`ValueError`), and no table at all is produced. -/
theorem build_table_validation_error
    (now : ℤ) (offs : ℕ → ℕ) (records : List RawRecord)
    (hmem : "stars" ∈ unionKeys records)
    (hbad : ∃ r ∈ records, toNumericCell (rawLookup r "stars") = none) :
    process_reviews_data now offs records =
      .error (.validation (records.findIdx
        (fun r => (toNumericCell (rawLookup r "stars")).isNone))) ∧
    ∀ df, process_reviews_data now offs records ≠ .ok df := by
  have hsc := getCol_mk records "stars" hmem
  have hbad' : ∃ v ∈ records.map (fun r => rawLookup r "stars"),
      toNumericCell v = none := by
    obtain ⟨r, hr, hnone⟩ := hbad
    exact ⟨rawLookup r "stars", List.mem_map_of_mem _ hr, hnone⟩
  have herr := toNumericAux_error _ 0 hbad'
  have herr2 : toNumericAux 0 (records.map (fun r => rawLookup r "stars")) =
      .error (records.findIdx
        (fun r => (toNumericCell (rawLookup r "stars")).isNone)) := by
    rw [herr, Nat.zero_add, findIdx_map]
  have hmain : process_reviews_data now offs records =
      .error (.validation (records.findIdx
        (fun r => (toNumericCell (rawLookup r "stars")).isNone))) := by
    simp only [process_reviews_data, hsc, toNumeric, herr2]
  exact ⟨hmain, fun df h => by rw [hmain] at h; exact Except.noConfusion h⟩

/-- C2 witness: the theorem instantiated on an input whose second record
has rating `"N/A"`. -/
theorem build_table_validation_error_witness :
    ("stars" ∈ unionKeys badRecords ∧
      ∃ r ∈ badRecords, toNumericCell (rawLookup r "stars") = none) ∧
    (process_reviews_data 0 (fun _ => 0) badRecords =
      .error (.validation (badRecords.findIdx
        (fun r => (toNumericCell (rawLookup r "stars")).isNone))) ∧
     ∀ df, process_reviews_data 0 (fun _ => 0) badRecords ≠ .ok df) :=
  ⟨⟨by decide, by decide⟩,
    build_table_validation_error 0 (fun _ => 0) badRecords (by decide) (by decide)⟩

/-- C3 counterexample: on the empty input sequence the code does not
return an empty table — `pd.DataFrame([])` has no columns, so
`df['stars']` raises a `KeyError` and no table is produced. -/
theorem empty_input_counterexample :
    process_reviews_data 0 (fun _ => 0) [] = .error (.keyError "stars") ∧
    ∀ df, process_reviews_data 0 (fun _ => 0) [] ≠ .ok df := by
  have h1 : process_reviews_data 0 (fun _ => 0) [] =
      .error (.keyError "stars") := by decide
  exact ⟨h1, fun df h => by rw [h1] at h; exact Except.noConfusion h⟩

/-- C3 amended: for the empty input sequence `process_reviews_data`
always fails with a `KeyError` on the missing rating column (so the
downstream EmptyTableError path is never reached). -/
theorem empty_input_raises_key_error (now : ℤ) (offs : ℕ → ℕ) :
    process_reviews_data now offs [] = .error (.keyError "stars") := rfl

/-- C5: every synthetic review_date of a successfully built table lies
in the inclusive range `[now - 730, now]`, for every row and every value
of the per-row randomness oracle (whose draws `random.randint(0, 730)`
are bounded by 730). -/
theorem review_dates_in_range
    (now : ℤ) (offs : ℕ → ℕ) (records : List RawRecord) (df : DataFrame)
    (hoffs : ∀ n, offs n ≤ 730)
    (h : process_reviews_data now offs records = .ok df) :
    ∀ t ∈ reviewDates df, now - 730 ≤ t ∧ t ≤ now := by
  obtain ⟨-, -, -, -, -, hdates, -⟩ := process_ok_spec h
  intro t ht
  rw [hdates] at ht
  obtain ⟨i, _, hteq⟩ := List.mem_map.mp ht
  have hle := hoffs i
  omega

/-- C5 witness: the theorem instantiated on the two-record scenario with
the all-zero oracle at `now = 0`. -/
theorem review_dates_in_range_witness :
    ((∀ n : ℕ, (fun _ : ℕ => 0) n ≤ 730) ∧
      process_reviews_data 0 (fun _ => 0) sampleRecords = .ok sampleDF) ∧
    ∀ t ∈ reviewDates sampleDF, (0 : ℤ) - 730 ≤ t ∧ t ≤ 0 :=
  ⟨⟨fun _ => Nat.zero_le 730, by decide⟩,
    review_dates_in_range 0 (fun _ => 0) sampleRecords sampleDF
      (fun _ => Nat.zero_le 730) (by decide)⟩

/-- C10: a record whose rating field is null (or absent) does not trip
the `to_numeric` error path: the table is built, the row is retained
with a `NaN` rating, and the rating histogram — which skips missing
values — counts strictly fewer entries than the table has rows. -/
theorem null_rating_retained
    (now : ℤ) (offs : ℕ → ℕ) (records : List RawRecord) (i : ℕ)
    (hmem : "stars" ∈ unionKeys records)
    (hall : ∀ r ∈ records, (toNumericCell (rawLookup r "stars")).isSome)
    (hi : i < records.length)
    (hnull : rawLookup records[i] "stars" = none) :
    ∃ df, process_reviews_data now offs records = .ok df ∧
      df.rows.length = records.length ∧
      (starsRatings df)[i]? = some none ∧
      (((rating_histogram df).getD []).map Prod.snd).sum =
        ((starsRatings df).filterMap id).length ∧
      ((starsRatings df).filterMap id).length < records.length := by
  have hsc := getCol_mk records "stars" hmem
  have hok : ∀ v ∈ records.map (fun r => rawLookup r "stars"),
      (toNumericCell v).isSome := by
    intro v hv
    obtain ⟨r, hr, hveq⟩ := List.mem_map.mp hv
    exact hveq ▸ hall r hr
  have hnum := toNumericAux_ok _ 0 hok
  have hproc : ∃ df, process_reviews_data now offs records = .ok df := by
    simp only [process_reviews_data, hsc, toNumeric, hnum]
    exact ⟨_, rfl⟩
  obtain ⟨df, hdf⟩ := hproc
  obtain ⟨hlen, _, _, hstars, hstarsr, _, _⟩ := process_ok_spec hdf
  have hfi : (toNumericCell (rawLookup records[i] "stars")).getD none = none := by
    rw [hnull]
    rfl
  refine ⟨df, hdf, hlen, ?_, ?_, ?_⟩
  · rw [hstarsr, List.getElem?_map, List.getElem?_eq_getElem hi]
    simp [hfi]
  · have hX : (((records.map
        (fun r => (toNumericCell (rawLookup r "stars")).getD none)).map
          (fun oq => oq.map Value.num)).map asNum) =
        records.map (fun r => (toNumericCell (rawLookup r "stars")).getD none) := by
      rw [List.map_map]
      have : (asNum ∘ fun oq => oq.map Value.num) = id := by
        funext oq
        exact asNum_map_num oq
      rw [this, List.map_id]
    have hrh : rating_histogram df = some (value_counts (records.map
        (fun r => (toNumericCell (rawLookup r "stars")).getD none))) := by
      unfold rating_histogram
      rw [hstars]
      simp only [Option.map_some']
      congr 1
      rw [List.map_map, List.map_map]
      congr 1
      exact List.map_congr_left (fun r _ => asNum_map_num _)
    rw [hrh, Option.getD_some, hstarsr]
    exact value_counts_sum _
  · rw [hstarsr]
    have hnm : none ∈ records.map
        (fun r => (toNumericCell (rawLookup r "stars")).getD none) := by
      have h2 := List.mem_map_of_mem
        (fun r => (toNumericCell (rawLookup r "stars")).getD none)
        (List.getElem_mem hi)
      simpa only [hfi] using h2
    have hlt := length_filterMap_lt_of_none_mem _ hnm
    rwa [List.length_map] at hlt

/-- C6 counterexample: on a built table with one null rating among two
rows, the histogram counts sum to 1 while the table has 2 rows —
`value_counts` drops `NaN`, so the claim's "counts sum to the row count"
fails as stated. -/
theorem rating_histogram_sum_counterexample :
    process_reviews_data 0 (fun _ => 0) nullRecords = .ok nullDF ∧
    nullDF.rows.length = 2 ∧
    (((rating_histogram nullDF).getD []).map Prod.snd).sum = 1 :=
  ⟨by decide, by decide, by decide⟩

theorem length_filterMap_of_no_none {α : Type} :
    ∀ l : List (Option α), (∀ o ∈ l, o ≠ none) → (l.filterMap id).length = l.length := by
  intro l
  induction l with
  | nil => intro _; rfl
  | cons x xs ih =>
    intro h
    cases x with
    | none => exact absurd rfl (h none (List.mem_cons_self none xs))
    | some a =>
      have hc : List.filterMap id (some a :: xs) = a :: List.filterMap id xs := by
        simp
      rw [hc, List.length_cons, List.length_cons,
        ih (fun o ho => h o (List.mem_cons_of_mem _ ho))]

/-- C6 amended: `rating_histogram` groups rows by exact rating value in
ascending key order without zero-filling absent values, and its counts
sum to the number of rows whose rating is non-null — which equals the
table's row count whenever every rating is non-null. -/
theorem rating_histogram_spec (df : DataFrame) (sc : List (Option Value))
    (hsc : getCol df "stars" = some sc) (hne : df.rows ≠ []) :
    ∃ hist, rating_histogram df = some hist ∧
      (hist.map Prod.snd).sum = (((sc.map asNum)).filterMap id).length ∧
      List.Sorted (· < ·) (hist.map Prod.fst) ∧
      (hist.map Prod.fst).Nodup ∧
      (∀ p ∈ hist, some p.1 ∈ sc.map asNum ∧
        p.2 = ((sc.map asNum).filterMap id).count p.1 ∧ 0 < p.2) ∧
      (∀ q : ℚ, some q ∈ sc.map asNum → q ∈ hist.map Prod.fst) ∧
      ((∀ oq ∈ sc.map asNum, oq ≠ none) →
        (hist.map Prod.snd).sum = df.rows.length) := by
  have hh : rating_histogram df = some (value_counts (sc.map asNum)) := by
    unfold rating_histogram
    rw [hsc]
    rfl
  refine ⟨value_counts (sc.map asNum), hh, value_counts_sum _,
    value_counts_sorted _, (value_counts_sorted _).nodup, ?_, ?_, ?_⟩
  · intro p hp
    exact value_counts_mem hp
  · intro q hq
    exact value_counts_complete hq
  · intro hnn
    rw [value_counts_sum _, length_filterMap_of_no_none _ hnn,
      List.length_map]
    exact getCol_length hsc

/-- C6 witness: the amended theorem instantiated on the two-row
scenario table (all ratings non-null there, so the sum equals the row
count 2). -/
theorem rating_histogram_spec_witness :
    (getCol sampleDF "stars" =
      some [some (.num 5), some (.num 3)] ∧ sampleDF.rows ≠ []) ∧
    ∃ hist, rating_histogram sampleDF = some hist ∧
      (hist.map Prod.snd).sum =
        ((([some (.num 5), some (.num 3)].map asNum)).filterMap id).length ∧
      List.Sorted (· < ·) (hist.map Prod.fst) ∧
      (hist.map Prod.fst).Nodup ∧
      (∀ p ∈ hist, some p.1 ∈ [some (.num 5), some (.num 3)].map asNum ∧
        p.2 = (([some (.num 5), some (.num 3)].map asNum).filterMap id).count p.1 ∧
        0 < p.2) ∧
      (∀ q : ℚ, some q ∈ [some (.num 5), some (.num 3)].map asNum →
        q ∈ hist.map Prod.fst) ∧
      ((∀ oq ∈ [some (.num 5), some (.num 3)].map asNum, oq ≠ none) →
        (hist.map Prod.snd).sum = sampleDF.rows.length) :=
  ⟨⟨by decide, by decide⟩,
    rating_histogram_spec sampleDF [some (.num 5), some (.num 3)]
      (by decide) (by decide)⟩

/-! ## monthly_counts lemmas -/

theorem foldl_min_le_init {α : Type} [LinearOrder α] :
    ∀ (l : List α) (a : α), l.foldl min a ≤ a := by
  intro l
  induction l with
  | nil => intro a; exact le_refl a
  | cons x l ih =>
    intro a
    exact le_trans (ih (min a x)) (min_le_left a x)

theorem foldl_min_le_mem {α : Type} [LinearOrder α] :
    ∀ (l : List α) (a x : α), x ∈ l → l.foldl min a ≤ x := by
  intro l
  induction l with
  | nil => intro a x h; cases h
  | cons y l ih =>
    intro a x h
    cases h with
    | head => exact le_trans (foldl_min_le_init l (min a y)) (min_le_right a y)
    | tail _ h => exact ih (min a y) x h

theorem le_foldl_max_init {α : Type} [LinearOrder α] :
    ∀ (l : List α) (a : α), a ≤ l.foldl max a := by
  intro l
  induction l with
  | nil => intro a; exact le_refl a
  | cons x l ih =>
    intro a
    exact le_trans (le_max_left a x) (ih (max a x))

theorem le_foldl_max_mem {α : Type} [LinearOrder α] :
    ∀ (l : List α) (a x : α), x ∈ l → x ≤ l.foldl max a := by
  intro l
  induction l with
  | nil => intro a x h; cases h
  | cons y l ih =>
    intro a x h
    cases h with
    | head => exact le_trans (le_max_right a y) (le_foldl_max_init l (max a y))
    | tail _ h => exact ih (max a y) x h

theorem mem_bucketKeys {lo hi m : ℤ} :
    m ∈ bucketKeys lo hi ↔ lo ≤ m ∧ m ≤ hi := by
  simp only [bucketKeys, List.mem_map, List.mem_range]
  constructor
  · rintro ⟨i, hilt, rfl⟩
    omega
  · intro hm
    exact ⟨(m - lo).toNat, by omega, by omega⟩

theorem sorted_bucketKeys (lo hi : ℤ) :
    List.Sorted (· < ·) (bucketKeys lo hi) := by
  unfold bucketKeys
  rw [List.Sorted, List.pairwise_map]
  exact (List.pairwise_lt_range _).imp (fun h => by omega)

/-- The properties `resample('M').size()` guarantees on any non-empty
date column: counts per month bucket, buckets strictly chronological
without duplicates, and totals preserved. -/
theorem monthly_counts_props (dates : List ℤ) (hne : dates ≠ []) :
    ((monthly_counts dates).map Prod.snd).sum = dates.length ∧
    List.Sorted (· < ·) ((monthly_counts dates).map Prod.fst) ∧
    ((monthly_counts dates).map Prod.fst).Nodup ∧
    ∀ p ∈ monthly_counts dates, p.2 = (dates.map monthIndex).count p.1 := by
  cases dates with
  | nil => exact absurd rfl hne
  | cons d ds =>
    simp only [monthly_counts]
    have hmem : ∀ m ∈ (d :: ds).map monthIndex,
        ((d :: ds).map monthIndex).foldl min (monthIndex d) ≤ m ∧
        m ≤ ((d :: ds).map monthIndex).foldl max (monthIndex d) :=
      fun m hm => ⟨foldl_min_le_mem _ _ m hm, le_foldl_max_mem _ _ m hm⟩
    refine ⟨?_, ?_, ?_, ?_⟩
    · rw [List.map_map]
      have hsnd : (Prod.snd ∘ fun m : ℤ =>
          (m, ((d :: ds).map monthIndex).count m)) =
          fun m => ((d :: ds).map monthIndex).count m := rfl
      rw [hsnd, count_sum_eq_length _ _ (sorted_bucketKeys _ _).nodup
        (fun v hv => mem_bucketKeys.mpr (hmem v hv))]
      simp
    · rw [List.map_map]
      have hfst : (Prod.fst ∘ fun m : ℤ =>
          (m, ((d :: ds).map monthIndex).count m)) = id := rfl
      rw [hfst, List.map_id]
      exact sorted_bucketKeys _ _
    · rw [List.map_map]
      have hfst : (Prod.fst ∘ fun m : ℤ =>
          (m, ((d :: ds).map monthIndex).count m)) = id := rfl
      rw [hfst, List.map_id]
      exact (sorted_bucketKeys _ _).nodup
    · intro p hp
      rw [List.mem_map] at hp
      obtain ⟨m, _, hm⟩ := hp
      rw [← hm]

/-- C7: on every table built from a non-empty input, the monthly review
counts bucket rows by the calendar month of their synthetic date, the
per-bucket counts sum to the table's row count, and the bucket keys are
strictly chronological with no duplicates. -/
theorem monthly_review_counts_spec
    (now : ℤ) (offs : ℕ → ℕ) (records : List RawRecord) (df : DataFrame)
    (h : process_reviews_data now offs records = .ok df)
    (hne : records ≠ []) :
    ((monthly_counts (reviewDates df)).map Prod.snd).sum = df.rows.length ∧
    List.Sorted (· < ·) ((monthly_counts (reviewDates df)).map Prod.fst) ∧
    ((monthly_counts (reviewDates df)).map Prod.fst).Nodup ∧
    ∀ p ∈ monthly_counts (reviewDates df),
      p.2 = ((reviewDates df).map monthIndex).count p.1 := by
  obtain ⟨hlen, _, _, _, _, hdates, _⟩ := process_ok_spec h
  have hlen2 : (reviewDates df).length = df.rows.length := by
    rw [hdates, hlen]
    simp
  have hne2 : reviewDates df ≠ [] := by
    intro h0
    have hl := congrArg List.length h0
    rw [hlen2, hlen] at hl
    simp only [List.length_nil] at hl
    exact hne (List.length_eq_zero.mp hl)
  obtain ⟨s1, s2, s3, s4⟩ := monthly_counts_props (reviewDates df) hne2
  exact ⟨by rw [s1, hlen2], s2, s3, s4⟩

/-- C7 witness: the theorem instantiated on the two-record scenario. -/
theorem monthly_review_counts_spec_witness :
    (process_reviews_data 0 (fun _ => 0) sampleRecords = .ok sampleDF ∧
      sampleRecords ≠ []) ∧
    ((monthly_counts (reviewDates sampleDF)).map Prod.snd).sum =
      sampleDF.rows.length ∧
    List.Sorted (· < ·) ((monthly_counts (reviewDates sampleDF)).map Prod.fst) ∧
    ((monthly_counts (reviewDates sampleDF)).map Prod.fst).Nodup ∧
    ∀ p ∈ monthly_counts (reviewDates sampleDF),
      p.2 = ((reviewDates sampleDF).map monthIndex).count p.1 :=
  ⟨⟨by decide, by decide⟩,
    monthly_review_counts_spec 0 (fun _ => 0) sampleRecords sampleDF
      (by decide) (by decide)⟩

/-- C4: the summary block fails with the `iloc[0]` error on a zero-row
table (the spec's EmptyTableError); on a single-row table the mean
rating is exactly that row's rating; and in general the mean rating is
the unweighted arithmetic mean of the rating column, displayed after
rounding to 2 decimal places. -/
theorem summary_spec (df : DataFrame)
    (tc cc rc sc : List (Option Value))
    (h1 : getCol df "title" = some tc) (h2 : getCol df "categoryName" = some cc)
    (h3 : getCol df "reviewsCount" = some rc) (h4 : getCol df "stars" = some sc) :
    (df.rows = [] → summary df = .error .indexError) ∧
    (∀ v1 v2 v3 q, tc = [v1] → cc = [v2] → rc = [v3] → sc = [some (.num q)] →
      summary df = .ok ⟨v1, v2, v3, some q⟩) ∧
    (∀ qs : List ℚ, sc.map asNum = qs.map some → qs ≠ [] →
      ∃ s, summary df = .ok s ∧ s.mean = some (qs.sum / (qs.length : ℚ)) ∧
        displayedMeanRating df = .ok (some (round2 (qs.sum / (qs.length : ℚ))))) := by
  have hsum : summary df =
      (iloc0 tc).bind (fun t => (iloc0 cc).bind (fun c => (iloc0 rc).bind
        (fun r => .ok ⟨t, c, r, meanRating (sc.map asNum)⟩))) := by
    unfold summary
    rw [h1, h2, h3, h4]
    rfl
  refine ⟨?_, ?_, ?_⟩
  · intro hrows
    have htc : tc = [] := by
      apply List.length_eq_zero.mp
      rw [getCol_length h1, hrows]
      rfl
    rw [hsum, htc]
    rfl
  · intro v1 v2 v3 q htc hcc hrc hsc2
    have hm : meanRating ([some (Value.num q)].map asNum) = some q := by
      simp [meanRating, asNum, div_one]
    rw [hsum, htc, hcc, hrc, hsc2, ← hm]
    rfl
  · intro qs hqs hne
    have hq0 : qs.length ≠ 0 := fun h => hne (List.length_eq_zero.mp h)
    have hrows : df.rows.length = qs.length := by
      rw [← getCol_length h4]
      have := congrArg List.length hqs
      simpa using this
    have hcol_ne : ∀ (col : List (Option Value)),
        col.length = df.rows.length → col ≠ [] := by
      intro col hcl h0
      rw [h0] at hcl
      simp only [List.length_nil] at hcl
      omega
    obtain ⟨t, tc', htc'⟩ :=
      List.exists_cons_of_ne_nil (hcol_ne tc (getCol_length h1))
    obtain ⟨c, cc', hcc'⟩ :=
      List.exists_cons_of_ne_nil (hcol_ne cc (getCol_length h2))
    obtain ⟨r, rc', hrc'⟩ :=
      List.exists_cons_of_ne_nil (hcol_ne rc (getCol_length h3))
    have hmean : meanRating (sc.map asNum) = some (qs.sum / (qs.length : ℚ)) := by
      unfold meanRating
      rw [hqs]
      have hfm : (qs.map some).filterMap id = qs := by
        rw [List.filterMap_map]
        have : (id ∘ some : ℚ → Option ℚ) = some := rfl
        rw [this, List.filterMap_some]
      rw [hfm, if_neg hq0]
    have hsummary : summary df =
        .ok ⟨t, c, r, meanRating (sc.map asNum)⟩ := by
      rw [hsum, htc', hcc', hrc']
      rfl
    refine ⟨⟨t, c, r, meanRating (sc.map asNum)⟩, hsummary, hmean, ?_⟩
    rw [displayedMeanRating, hsummary]
    simp only [Except.map, hmean, Option.map_some']

/-- C4 witness: the theorem applied to an all-columns zero-row table
(empty-table failure) and to a one-row table (exact single-row mean). -/
theorem summary_spec_witness :
    ((getCol emptyDF "title" = some [] ∧ getCol emptyDF "categoryName" = some [] ∧
      getCol emptyDF "reviewsCount" = some [] ∧ getCol emptyDF "stars" = some [] ∧
      emptyDF.rows = ([] : List (List (Option Value)))) ∧
     summary emptyDF = .error .indexError) ∧
    ((getCol singleDF "title" = some [some (.str "Cafe X")] ∧
      getCol singleDF "stars" = some [some (.num 5)]) ∧
     summary singleDF =
       .ok ⟨some (.str "Cafe X"), some (.str "Cafe"), some (.num 2), some 5⟩) :=
  ⟨⟨⟨by decide, by decide, by decide, by decide, rfl⟩,
    (summary_spec emptyDF [] [] [] []
      (by decide) (by decide) (by decide) (by decide)).1 rfl⟩,
   ⟨⟨by decide, by decide⟩,
    (summary_spec singleDF [some (.str "Cafe X")] [some (.str "Cafe")]
        [some (.num 2)] [some (.num 5)]
        (by decide) (by decide) (by decide) (by decide)).2.1
      (some (.str "Cafe X")) (some (.str "Cafe")) (some (.num 2)) 5
      rfl rfl rfl rfl⟩⟩

/-- C8: the Insight Requester projection keeps exactly the rows whose
text is non-null, restricted to exactly the `stars` and `text` columns,
in order. -/
theorem insight_projection_spec (df : DataFrame)
    (hwf : WF df) (hs : "stars" ∈ df.cols) (ht : "text" ∈ df.cols) :
    ∃ d, dfAI df = some d ∧ d.cols = ["stars", "text"] ∧
      d.rows = (df.rows.filter (fun r => (cellAt df.cols r "text").isSome)).map
        (fun r => [cellAt df.cols r "stars", cellAt df.cols r "text"]) := by
  have hsel : selectCols df ["stars", "text"] = some
      ⟨["stars", "text"],
        df.rows.map (fun r => [cellAt df.cols r "stars", cellAt df.cols r "text"])⟩ := by
    unfold selectCols
    rw [if_pos]
    · rfl
    · simp [hs, ht]
  refine ⟨⟨["stars", "text"],
      (df.rows.map (fun r => [cellAt df.cols r "stars", cellAt df.cols r "text"])).filter
        (fun r => (cellAt ["stars", "text"] r "text").isSome)⟩, ?_, rfl, ?_⟩
  · unfold dfAI
    rw [hsel]
    rfl
  · rw [List.filter_map]
    rfl

/-- C8 witness: the theorem instantiated on the two-row scenario table;
the projection there has exactly 1 row (the record with non-null
text). -/
theorem insight_projection_spec_witness :
    (WF sampleDF ∧ "stars" ∈ sampleDF.cols ∧ "text" ∈ sampleDF.cols) ∧
    (∃ d, dfAI sampleDF = some d ∧ d.cols = ["stars", "text"] ∧
      d.rows = (sampleDF.rows.filter
          (fun r => (cellAt sampleDF.cols r "text").isSome)).map
        (fun r => [cellAt sampleDF.cols r "stars", cellAt sampleDF.cols r "text"])) ∧
    ((dfAI sampleDF).getD ⟨[], []⟩).rows.length = 1 :=
  ⟨⟨by unfold WF; decide, by decide, by decide⟩,
   insight_projection_spec sampleDF (by unfold WF; decide) (by decide) (by decide),
   by decide⟩

/-! ## Numeral round-trip lemmas -/

theorem digitChar_toNat {d : ℕ} (h : d < 10) : (digitChar d).toNat = 48 + d := by
  interval_cases d <;> decide

theorem digitChar_isDigit {d : ℕ} (h : d < 10) : (digitChar d).isDigit = true := by
  interval_cases d <;> decide

theorem natChars_ne_nil (n : ℕ) : natChars n ≠ [] := by
  unfold natChars
  by_cases h : n = 0
  · simp [h]
  · rw [if_neg h]
    simp [Nat.digits_ne_nil_iff_ne_zero, h]

theorem natChars_all_digits (n : ℕ) : ∀ c ∈ natChars n, c.isDigit = true := by
  intro c hc
  unfold natChars at hc
  by_cases h : n = 0
  · rw [if_pos h] at hc
    simp only [List.mem_singleton] at hc
    subst hc
    decide
  · rw [if_neg h, List.mem_reverse, List.mem_map] at hc
    obtain ⟨d, hd, hdc⟩ := hc
    have hlt : d < 10 := Nat.digits_lt_base (by norm_num) hd
    exact hdc ▸ digitChar_isDigit hlt

theorem foldr_digits_eq_ofDigits :
    ∀ l : List ℕ, (∀ d ∈ l, d < 10) →
      l.foldr (fun d a => 10 * a + ((digitChar d).toNat - 48)) 0 =
        Nat.ofDigits 10 l := by
  intro l
  induction l with
  | nil => intro _; rfl
  | cons d l ih =>
    intro h
    have hd : d < 10 := h d (List.mem_cons_self d l)
    rw [List.foldr_cons, ih (fun x hx => h x (List.mem_cons_of_mem d hx)),
      digitChar_toNat hd, Nat.ofDigits_cons]
    omega

theorem digitsToNat_natChars (n : ℕ) : digitsToNat (natChars n) = n := by
  unfold natChars
  by_cases h : n = 0
  · rw [if_pos h, h]
    decide
  · rw [if_neg h]
    unfold digitsToNat
    rw [List.foldl_reverse, List.foldr_map]
    rw [foldr_digits_eq_ofDigits _
      (fun d hd => Nat.digits_lt_base (by norm_num) hd)]
    exact Nat.ofDigits_digits 10 n

theorem takeWhile_digits (ds rest : List Char)
    (hds : ∀ c ∈ ds, c.isDigit = true)
    (hrest : ∀ c r', rest = c :: r' → c.isDigit = false) :
    (ds ++ rest).takeWhile Char.isDigit = ds ∧
    (ds ++ rest).dropWhile Char.isDigit = rest := by
  induction ds with
  | nil =>
    cases rest with
    | nil => exact ⟨rfl, rfl⟩
    | cons c r' =>
      have hc := hrest c r' rfl
      constructor
      · simp [List.takeWhile_cons, hc]
      · simp [List.dropWhile_cons, hc]
  | cons d ds ih =>
    have hd : d.isDigit = true := hds d (List.mem_cons_self d ds)
    have hih := ih (fun c hc => hds c (List.mem_cons_of_mem d hc))
    constructor
    · simp [List.takeWhile_cons, hd, hih.1]
    · simp [List.dropWhile_cons, hd, hih.2]

theorem all_digits_natChars (n : ℕ) : (natChars n).all Char.isDigit = true := by
  rw [List.all_eq_true]
  exact natChars_all_digits n

theorem parsePosRat_encode (a b : ℕ) (hb : b ≠ 0) :
    parsePosRat (natChars a ++ (if b = 1 then [] else '/' :: natChars b)) =
      some ((a : ℚ) / (b : ℚ)) := by
  by_cases hb1 : b = 1
  · subst hb1
    rw [if_pos rfl, List.append_nil]
    have h2 := takeWhile_digits (natChars a) [] (natChars_all_digits a)
      (fun c r' h => nomatch h)
    rw [List.append_nil] at h2
    unfold parsePosRat
    rw [h2.1, h2.2, if_neg (natChars_ne_nil a)]
    rw [digitsToNat_natChars]
    norm_num
  · rw [if_neg hb1]
    have h2 := takeWhile_digits (natChars a) ('/' :: natChars b)
      (natChars_all_digits a)
      (fun c r' h => by cases h; decide)
    unfold parsePosRat
    rw [h2.1, h2.2, if_neg (natChars_ne_nil a)]
    have hcond : '/' = '/' ∧ natChars b ≠ [] ∧
        (natChars b).all Char.isDigit = true ∧ digitsToNat (natChars b) ≠ 0 :=
      ⟨rfl, natChars_ne_nil b, all_digits_natChars b,
        by rw [digitsToNat_natChars]; exact hb⟩
    simp only [if_pos hcond, digitsToNat_natChars]
    simp [natChars_ne_nil, all_digits_natChars, hb]

theorem isDigit_ne_dash {c : Char} (h : c.isDigit = true) : ¬ c = '-' := by
  intro he
  subst he
  exact absurd h (by decide)

theorem parseRatChars_ratChars (q : ℚ) : parseRatChars (ratChars q) = some q := by
  have hden : q.den ≠ 0 := q.den_nz
  unfold ratChars intChars
  by_cases hneg : q.num < 0
  · rw [if_pos hneg, List.cons_append]
    unfold parseRatChars
    have hnum : ((q.num.natAbs : ℕ) : ℚ) = -(q.num : ℚ) := by
      rw [Int.cast_natAbs, abs_of_neg hneg]
      exact Int.cast_neg q.num
    simp only [parsePosRat_encode _ _ hden, Option.map_some', if_pos rfl]
    rw [hnum, neg_div, neg_neg, Rat.num_div_den]
    simp
  · rw [if_neg hneg]
    obtain ⟨c, cs, hcs⟩ := List.exists_cons_of_ne_nil (natChars_ne_nil q.num.toNat)
    have hcd : c.isDigit = true :=
      natChars_all_digits _ c (hcs ▸ List.mem_cons_self c cs)
    rw [hcs, List.cons_append]
    unfold parseRatChars
    simp only [if_neg (isDigit_ne_dash hcd)]
    rw [← List.cons_append, ← hcs, parsePosRat_encode _ _ hden]
    have hcast : ((q.num.toNat : ℕ) : ℚ) = (q.num : ℚ) := by
      exact_mod_cast congrArg (Int.cast : ℤ → ℚ)
        (Int.toNat_of_nonneg (not_lt.mp hneg))
    rw [hcast, Rat.num_div_den]

theorem ratChars_ne_nil (q : ℚ) : ratChars q ≠ [] := by
  unfold ratChars intChars
  by_cases hneg : q.num < 0
  · rw [if_pos hneg]
    simp
  · rw [if_neg hneg]
    obtain ⟨c, cs, hcs⟩ := List.exists_cons_of_ne_nil (natChars_ne_nil q.num.toNat)
    rw [hcs]
    simp

theorem parseRatField_cellField (oq : Option ℚ) :
    parseRatField (cellField (oq.map Value.num)) = some oq := by
  cases oq with
  | none => rfl
  | some q =>
    show parseRatField (ratChars q) = some (some q)
    unfold parseRatField
    rw [if_neg (ratChars_ne_nil q), parseRatChars_ratChars]
    rfl

/-! ## CSV escaping round-trip lemmas -/

theorem parseUnquoted_append (f0 : List Char) (d : Char) (rest : List Char)
    (hd : d = ',' ∨ d = '\n') (hf : ∀ c ∈ f0, ¬ (c = ',' ∨ c = '\n')) :
    parseUnquoted (f0 ++ d :: rest) = (f0, d :: rest) := by
  induction f0 with
  | nil =>
    simp only [List.nil_append]
    unfold parseUnquoted
    rw [if_pos hd]
  | cons c f0 ih =>
    have hc := hf c (List.mem_cons_self c f0)
    simp only [List.cons_append]
    unfold parseUnquoted
    rw [if_neg hc]
    simp only [ih (fun c' h => hf c' (List.mem_cons_of_mem c h))]

theorem parseQuoted_escQuotes (f0 : List Char) :
    ∀ rest : List Char, (∀ c r', rest = c :: r' → ¬ c = '"') →
      parseQuoted (escQuotes f0 ++ rest) = some (f0, rest) := by
  induction f0 with
  | nil =>
    intro rest hrest
    show parseQuoted ('"' :: rest) = some ([], rest)
    cases rest with
    | nil => rfl
    | cons c2 r' =>
      have hc2 := hrest c2 r' rfl
      simp [parseQuoted, hc2]
  | cons c f0 ih =>
    intro rest hrest
    by_cases hc : c = '"'
    · subst hc
      have he : escQuotes ('"' :: f0) ++ rest = '"' :: '"' :: (escQuotes f0 ++ rest) := by
        simp [escQuotes]
      rw [he]
      unfold parseQuoted
      simp [ih rest hrest]
    · have he : escQuotes (c :: f0) ++ rest = c :: (escQuotes f0 ++ rest) := by
        simp [escQuotes, hc]
      rw [he]
      unfold parseQuoted
      rw [if_neg hc, ih rest hrest]
      rfl

theorem csvNoSpecial {f0 : List Char} (h : csvNeedsQuote f0 = false) :
    ∀ c ∈ f0, ¬ c = ',' ∧ ¬ c = '"' ∧ ¬ c = '\n' ∧ ¬ c = '\r' := by
  intro c hc
  unfold csvNeedsQuote at h
  rw [List.any_eq_false] at h
  have h2 := h c hc
  simp at h2
  tauto

theorem parseField_escape (f0 : List Char) (d : Char) (rest : List Char)
    (hd : d = ',' ∨ d = '\n') :
    parseField (escapeField f0 ++ d :: rest) = some (f0, d :: rest) := by
  have hdq : ¬ d = '"' := by
    rcases hd with h | h <;> subst h <;> decide
  unfold escapeField
  by_cases hq : csvNeedsQuote f0
  · rw [if_pos hq, List.cons_append]
    show parseQuoted (escQuotes f0 ++ d :: rest) = some (f0, d :: rest)
    exact parseQuoted_escQuotes f0 (d :: rest) (fun c r' h => by cases h; exact hdq)
  · have hq' : csvNeedsQuote f0 = false := by
      simpa using hq
    rw [if_neg hq]
    have hspec := csvNoSpecial hq'
    cases hf0 : f0 with
    | nil =>
      simp only [List.nil_append, parseField, if_neg hdq]
      have hu := parseUnquoted_append [] d rest hd (fun c h => nomatch h)
      simp only [List.nil_append] at hu
      rw [hu]
    | cons c f0' =>
      have hcm : c ∈ f0 := hf0 ▸ List.mem_cons_self c f0'
      have hcd : ¬ c = '"' := (hspec c hcm).2.1
      have hno : ∀ x ∈ c :: f0', ¬ (x = ',' ∨ x = '\n') := by
        intro x hx
        have h3 := hspec x (hf0 ▸ hx)
        rintro (h | h)
        · exact h3.1 h
        · exact h3.2.2.1 h
      simp only [List.cons_append, parseField, if_neg hcd]
      rw [← List.cons_append, parseUnquoted_append (c :: f0') d rest hd hno]

theorem encodeRecord_ne_nil (a b : List Char) : encodeRecord a b ≠ [] := by
  unfold encodeRecord
  cases h : escapeField a with
  | nil => simp
  | cons c cs => simp

theorem parseRecord_encode (a b rest : List Char) :
    parseRecord (encodeRecord a b ++ rest) = some ((a, b), rest) := by
  unfold encodeRecord
  have hassoc : (escapeField a ++ ',' :: escapeField b ++ ['\n']) ++ rest =
      escapeField a ++ ',' :: (escapeField b ++ '\n' :: rest) := by
    simp
  rw [hassoc]
  simp only [parseRecord, parseField_escape a ',' _ (Or.inl rfl),
    parseField_escape b '\n' rest (Or.inr rfl)]

theorem parseRecords_encode (l : List (List Char × List Char)) :
    ∀ fuel : ℕ, ((l.map (fun p => encodeRecord p.1 p.2)).flatten).length ≤ fuel →
      parseRecords fuel ((l.map (fun p => encodeRecord p.1 p.2)).flatten) = some l := by
  induction l with
  | nil => intro fuel _; simp [parseRecords]
  | cons p l ih =>
    intro fuel hfuel
    have hflat : ((p :: l).map (fun p => encodeRecord p.1 p.2)).flatten =
        encodeRecord p.1 p.2 ++ (l.map (fun p => encodeRecord p.1 p.2)).flatten := by
      simp
    rw [hflat] at hfuel ⊢
    obtain ⟨c, cs, hcs⟩ := List.exists_cons_of_ne_nil (encodeRecord_ne_nil p.1 p.2)
    cases fuel with
    | zero =>
      exfalso
      rw [hcs] at hfuel
      simp only [List.cons_append, List.length_cons] at hfuel
      omega
    | succ f =>
      have hlen : ((l.map (fun p => encodeRecord p.1 p.2)).flatten).length ≤ f := by
        rw [hcs] at hfuel
        simp only [List.cons_append, List.length_cons, List.length_append] at hfuel
        omega
      rw [hcs, List.cons_append]
      simp only [parseRecords]
      rw [← List.cons_append, ← hcs, parseRecord_encode]
      simp only [ih f hlen]

theorem optMapM_map {α β γ : Type} (f : β → Option γ) (h : α → β) :
    ∀ l : List α, optMapM f (l.map h) = optMapM (fun a => f (h a)) l := by
  intro l
  induction l with
  | nil => rfl
  | cons a l ih => simp only [List.map_cons, optMapM, ih]

theorem optMapM_some {α β : Type} (f : α → Option β) (g : α → β) :
    ∀ l : List α, (∀ a ∈ l, f a = some (g a)) → optMapM f l = some (l.map g) := by
  intro l
  induction l with
  | nil => intro _; rfl
  | cons a l ih =>
    intro h
    simp only [optMapM, h a (List.mem_cons_self a l),
      ih (fun a' ha' => h a' (List.mem_cons_of_mem a ha')), List.map_cons]

/-- C9: serializing the two-column (rating, text) projection with
`to_csv` and parsing the transfer format back yields exactly the same
(rating, text) pairs, in the same order, for every table whose
projection rows hold a numeric-or-null rating and a string text. -/
theorem csv_roundtrip (df d : DataFrame) (pairs : List (Option ℚ × String))
    (hai : dfAI df = some d)
    (hshape : d.rows = pairs.map (fun p => [p.1.map Value.num, some (.str p.2)])) :
    ∃ cs, toCsvAI df = some cs ∧
      parseCsvAI cs = some (pairs.map (fun p => (p.1, p.2.data))) := by
  have hrows : d.rows.map (fun r =>
      encodeRecord (cellField (r.getD 0 none)) (cellField (r.getD 1 none))) =
      (pairs.map (fun p => (cellField (p.1.map Value.num), p.2.data))).map
        (fun pr => encodeRecord pr.1 pr.2) := by
    rw [hshape, List.map_map, List.map_map]
    rfl
  have hcs : toCsvAI df = some
      ((((starsChars, textChars) ::
        pairs.map (fun p => (cellField (p.1.map Value.num), p.2.data))).map
          (fun pr => encodeRecord pr.1 pr.2)).flatten) := by
    unfold toCsvAI
    rw [hai, Option.map_some', hrows]
    simp
  refine ⟨_, hcs, ?_⟩
  have hrecs := parseRecords_encode
    ((starsChars, textChars) ::
      pairs.map (fun p => (cellField (p.1.map Value.num), p.2.data)))
    (((((starsChars, textChars) ::
      pairs.map (fun p => (cellField (p.1.map Value.num), p.2.data))).map
        (fun pr => encodeRecord pr.1 pr.2)).flatten).length) (le_refl _)
  unfold parseCsvAI
  rw [hrecs]
  simp only [if_pos
    (⟨rfl, rfl⟩ : starsChars = starsChars ∧ textChars = textChars)]
  rw [optMapM_map]
  apply optMapM_some
  intro p _
  simp only [parseRatField_cellField p.1, Option.map_some']

/-- C9 witness: the round trip instantiated on a concrete two-row
projection table. -/
theorem csv_roundtrip_witness :
    (dfAI csvDF = some csvDF ∧
      csvDF.rows = ([(some 5, "Great"), (some 3, "so-so")].map
        (fun p : Option ℚ × String => [p.1.map Value.num, some (.str p.2)]))) ∧
    ∃ cs, toCsvAI csvDF = some cs ∧
      parseCsvAI cs = some ([(some 5, "Great"), (some 3, "so-so")].map
        (fun p : Option ℚ × String => (p.1, p.2.data))) :=
  ⟨⟨by decide, by decide⟩,
    csv_roundtrip csvDF csvDF [(some 5, "Great"), (some 3, "so-so")]
      (by decide) (by decide)⟩

/-- C10 witness: the theorem instantiated on an input whose second
record has a null rating. -/
theorem null_rating_retained_witness :
    ("stars" ∈ unionKeys nullRecords ∧
      (∀ r ∈ nullRecords, (toNumericCell (rawLookup r "stars")).isSome) ∧
      1 < nullRecords.length ∧
      rawLookup nullRecords[1] "stars" = none) ∧
    ∃ df, process_reviews_data 0 (fun _ => 0) nullRecords = .ok df ∧
      df.rows.length = nullRecords.length ∧
      (starsRatings df)[1]? = some none ∧
      (((rating_histogram df).getD []).map Prod.snd).sum =
        ((starsRatings df).filterMap id).length ∧
      ((starsRatings df).filterMap id).length < nullRecords.length :=
  ⟨⟨by decide, by decide, by decide, by decide⟩,
    null_rating_retained 0 (fun _ => 0) nullRecords 1 (by decide) (by decide)
      (by decide) (by decide)⟩

end ReviewAnalyzer
